import Mathlib

/-!
# Honeycomb back-link exporter: identifiers, attribute flattening, timestamps
and link-event emission

A shallow embedding of `ids.go`, `translator.go` and `factory.go` of the
exporter, followed by the properties established about them.

Conventions of the embedding.
* A byte is a `Fin 256`; `pcommon.TraceID` (`[16]byte`) and `pcommon.SpanID`
  (`[8]byte`) are byte lists carrying their length.
* `uint64` values are naturals below `2 ^ 64`; `int64` values are integers.
* Go strings that the program builds are ASCII here, and are Lean strings.
* The calls into libhoney (`Add`, `Send`) can fail; which calls fail is an
  input of the model (`Outcomes`), and everything the exporter does to the
  outside world (events handed to `Send`, calls of `onError`, log lines) is
  recorded in an explicit state.
-/

namespace HoneycombBacklink

/-! ## Library functions used by `ids.go` -/

/-- One byte. -/
abbrev Byte := Fin 256

/-- The table `"0123456789abcdef"` of package fmt (`ldigits`) and of package
encoding/hex (`hextable`). -/
def ldigits : List Char :=
  ['0', '1', '2', '3', '4', '5', '6', '7', '8', '9', 'a', 'b', 'c', 'd', 'e', 'f']

/-- The lowercase hex digit of a value below 16: `ldigits[d]`. -/
def hexDigit (d : Nat) : Char := ldigits.getD d '0'

/-- The function `binary.BigEndian.Uint64`: the value
`b[7] | b[6]<<8 | ... | b[0]<<56` of the first eight bytes of `b`. The bytes
occupy disjoint bit ranges, so the bitwise or is the positional sum. -/
def bigEndianUint64 (b : List Byte) : Nat :=
  (b.take 8).foldl (fun acc x => acc * 256 + x.val) 0

/-- The digit loop of `fmt.fmtInteger` in base 16: while `u >= 16` the low
nibble is written in front of what is already in the buffer and `u` is
shifted right by four; the last nibble is written at the end. A `uint64`
needs at most sixteen rounds, which is what the first argument counts. -/
def hexDigitsLoop : Nat → Nat → List Char → List Char
  | 0, _, buf => buf
  | fuel + 1, u, buf =>
    if u < 16 then hexDigit u :: buf
    else hexDigitsLoop fuel (u / 16) (hexDigit (u % 16) :: buf)

/-- The verb `%x` on a `uint64`: the hex digits without leading zeros, `0`
for zero. -/
def fmtHexUint64 (u : Nat) : List Char := hexDigitsLoop 16 (u % 2 ^ 64) []

/-- The verb `%016x` on a `uint64`: the digits of `%x`, padded on the left
with `0` up to width 16. -/
def sprintf016x (u : Nat) : List Char := List.leftpad 16 '0' (fmtHexUint64 u)

/-- The function `hex.EncodeToString`: two lowercase digits per byte,
`hextable[v>>4]` then `hextable[v&0x0f]`. -/
def hexEncode (bs : List Byte) : List Char :=
  bs.flatMap (fun v => [hexDigit (v.val / 16), hexDigit (v.val % 16)])

/-- The bytes of a Go string (its UTF-8 encoding). -/
def stringBytes (s : String) : List Byte :=
  (s.data.flatMap String.utf8EncodeChar).map (fun u => u.val)

/-- The verb `%x` on a string (`fmt.fmtSx`): the hex encoding of the bytes
of the string, two lowercase digits per byte. -/
def fmtSx (s : String) : String := String.mk (hexEncode (stringBytes s))

/-! ## Identifiers (`pcommon`) -/

/-- The type `pcommon.TraceID`, a `[16]byte`. -/
structure TraceID where
  bytes : List Byte
  size : bytes.length = 16
deriving DecidableEq

/-- The type `pcommon.SpanID`, a `[8]byte`. -/
structure SpanID where
  bytes : List Byte
  size : bytes.length = 8
deriving DecidableEq

/-- The method `SpanID.IsEmpty`: no byte is non-zero. -/
def SpanID.IsEmpty (id : SpanID) : Bool := id.bytes.all (fun b => b.val == 0)

/-- The method `SpanID.String`: the empty string for the empty id, else
`hex.EncodeToString` of the eight bytes. -/
def SpanID.String (id : SpanID) : String :=
  if id.IsEmpty then "" else String.mk (hexEncode id.bytes)

/-! ## `ids.go` -/

/-- The constant `traceIDShortLength`. -/
def traceIDShortLength : Nat := 8

/-- The function `getHoneycombTraceID` of `ids.go`. -/
def getHoneycombTraceID (traceID : TraceID) : String :=
  let tID := traceID.bytes
  let low := bigEndianUint64 (tID.drop traceIDShortLength)
  let high := bigEndianUint64 (tID.take traceIDShortLength)
  if high ≠ 0 then String.mk (sprintf016x high ++ sprintf016x low)
  else String.mk (sprintf016x low)

/-- The function `getHoneycombSpanID` of `ids.go`: `fmt.Sprintf("%x", id)`
for a non-empty id, the empty string otherwise. `pcommon.SpanID` has a
`String` method (the exporter calls it in `sendSpanLinks`), so it is a
`fmt.Stringer`; for the verbs that are valid for strings, `%x` among them,
package fmt formats the result of `String()` as a string, not the
underlying array. -/
def getHoneycombSpanID (id : SpanID) : String :=
  if !id.IsEmpty then fmtSx id.String else ""

/-! ## What the specification says of the identifiers -/

/-- The `w`-digit zero-padded lowercase hex numeral of `n`: the last digit
is `n % 16`, in front of it stand the `w - 1` digits of `n / 16`. -/
def hexFixed : Nat → Nat → List Char
  | 0, _ => []
  | w + 1, n => hexFixed w (n / 16) ++ [hexDigit (n % 16)]

/-- The big-endian value of a byte string: the first byte is the most
significant. -/
def beValue : List Byte → Nat
  | [] => 0
  | b :: bs => b.val * 256 ^ bs.length + beValue bs

/-- The characters `0-9a-f`. -/
def isLowerHex (c : Char) : Bool := ldigits.contains c

/-! ## Typed attributes (`pcommon`) and Go values -/

/-- A `float64`, kept as its 64-bit pattern: the exporter only passes such
values on. -/
structure Float64 where
  bits : Nat
deriving DecidableEq

/-- The type `pcommon.Value`: one constructor per `ValueType`. -/
inductive Value where
  | empty
  | str (s : String)
  | int (i : Int)
  | double (f : Float64)
  | bool (b : Bool)
  | map (m : List (String × Value))
  | slice (vs : List Value)
  | bytes (bs : List Byte)

/-- The type `pcommon.Map`: a sequence of key-value pairs, ranged over in
order. -/
abbrev Map := List (String × Value)

/-- A Go `interface{}` holding one of the dynamic types the exporter puts
into a field. -/
inductive Any where
  | string (s : String)
  | bool (b : Bool)
  | int64 (i : Int)
  | float64 (f : Float64)
deriving DecidableEq

/-- A Go `map[string]interface{}`: at most one entry per key. -/
structure GoMap where
  entries : List (String × Any)
  nodup : (entries.map Prod.fst).Nodup
deriving DecidableEq

/-- The expression `make(map[string]interface{})`. -/
def GoMap.empty : GoMap := ⟨[], List.nodup_nil⟩

/-- The expression `v, ok := m[k]`. -/
def GoMap.get? (m : GoMap) (k : String) : Option Any :=
  (m.entries.find? (fun e => e.1 == k)).map Prod.snd

/-- The keys of a Go map. -/
def GoMap.keys (m : GoMap) : List String := m.entries.map Prod.fst

/-- The statement `m[k] = v`: the entry of `k`, if any, is replaced. -/
def GoMap.set (m : GoMap) (k : String) (v : Any) : GoMap :=
  ⟨(k, v) :: m.entries.filter (fun e => e.1 != k), by
    rw [List.map_cons, List.nodup_cons]
    refine ⟨?_, (m.nodup.sublist ((List.filter_sublist _).map _))⟩
    intro h
    obtain ⟨e, he, hk⟩ := List.mem_map.1 h
    have h2 := (List.mem_filter.1 he).2
    simp [hk] at h2⟩

/-- The verb `%v` on one of the four dynamic types; the rendering of a
`float64` (`%g` with the shortest representation) is left to `fmtFloat`. -/
def sprintV (fmtFloat : Float64 → String) : Any → String
  | .string s => s
  | .bool b => if b then "true" else "false"
  | .int64 i => toString i
  | .float64 f => fmtFloat f

/-! ## `translator.go` -/

/-- The body of the `Range` callback of `spanAttributesToMap`: the switch on
`value.Type()`. -/
def spanAttributesToMap.visit (attrs : GoMap) (key : String) (value : Value) : GoMap :=
  match value with
  | .str s => attrs.set key (.string s)
  | .bool b => attrs.set key (.bool b)
  | .int i => attrs.set key (.int64 i)
  | .double f => attrs.set key (.float64 f)
  | _ => attrs

/-- The function `spanAttributesToMap` of `translator.go`. -/
def spanAttributesToMap (spanAttrs : Map) : GoMap :=
  spanAttrs.foldl (fun attrs kv => spanAttributesToMap.visit attrs kv.1 kv.2) GoMap.empty

/-- A location of package time, as far as the exporter meets it. -/
inductive Location where
  | utc
  | localTime
deriving DecidableEq

/-- A `time.Time`: seconds since January 1, year 1 00:00:00 UTC, nanoseconds
within the second, and the location. -/
structure Time where
  sec : Int
  nsec : Int
  loc : Location
deriving DecidableEq

/-- The zero value of `time.Time`. -/
def Time.zero : Time := ⟨0, 0, .utc⟩

/-- The constant `unixToInternal` of package time: the seconds from year 1
to 1970. -/
def unixToInternal : Int := (1969 * 365 + 1969 / 4 - 1969 / 100 + 1969 / 400) * 86400

/-- The function `time.Unix(sec, nsec)`; the division is Go's, truncating
towards zero. -/
def timeUnix (sec nsec : Int) : Time :=
  let r : Int × Int :=
    if nsec < 0 ∨ nsec ≥ 1000000000 then
      let n := nsec.tdiv 1000000000
      let sec1 := sec + n
      let nsec1 := nsec - n * 1000000000
      if nsec1 < 0 then (sec1 - 1, nsec1 + 1000000000) else (sec1, nsec1)
    else (sec, nsec)
  ⟨r.1 + unixToInternal, r.2, .localTime⟩

/-- The method `Time.UTC`. -/
def Time.UTC (t : Time) : Time := { t with loc := .utc }

/-- The method `Time.UnixNano`: nanoseconds elapsed since
1970-01-01T00:00:00Z, as an unbounded integer. -/
def Time.UnixNano (t : Time) : Int := (t.sec - unixToInternal) * 1000000000 + t.nsec

/-- The conversion `int64(ts)` of a `uint64`: two's complement. -/
def toInt64 (ts : Nat) : Int :=
  if ts % 2 ^ 64 < 2 ^ 63 then ((ts % 2 ^ 64 : Nat) : Int) else ((ts % 2 ^ 64 : Nat) : Int) - 2 ^ 64

/-- The function `timestampToTime` of `translator.go`; `pcommon.Timestamp`
is a `uint64`. -/
def timestampToTime (ts : Nat) : Time :=
  if ts = 0 then Time.zero else (timeUnix 0 (toInt64 ts)).UTC

/-! ## The batch (`ptrace`) -/

/-- The type `ptrace.SpanLink`. -/
structure SpanLink where
  traceID : TraceID
  spanID : SpanID
  attributes : Map

/-- The type `ptrace.Span`, with the parts the exporter reads. -/
structure Span where
  traceID : TraceID
  spanID : SpanID
  startTimestamp : Nat
  links : List SpanLink

/-- The type `pcommon.InstrumentationScope`. -/
structure InstrumentationScope where
  name : String
  version : String

/-- The type `ptrace.ScopeSpans`. -/
structure ScopeSpans where
  scope : InstrumentationScope
  spans : List Span

/-- The type `ptrace.ResourceSpans`; `resource` is the attribute map of the
resource. -/
structure ResourceSpans where
  resource : Map
  scopeSpans : List ScopeSpans

/-- The type `ptrace.Traces`. -/
abbrev Traces := List ResourceSpans

/-! ## libhoney -/

/-- A `libhoney.Event`: its fields, its dataset and its timestamp. -/
structure Event where
  fields : GoMap
  Dataset : String
  Timestamp : Time
deriving DecidableEq

/-- A `libhoney.Builder`: the exporter adds nothing to it, so all an event
inherits from it is the dataset of the libhoney configuration. -/
structure Builder where
  Dataset : String

/-- The method `Builder.NewEvent`. libhoney also stamps the new event with the
wall-clock time; the clock is outside this model, and `Timestamp` holds the
zero time until the exporter assigns it. -/
def Builder.NewEvent (b : Builder) : Event := ⟨GoMap.empty, b.Dataset, Time.zero⟩

/-- The method `Event.AddField`. -/
def Event.AddField (ev : Event) (k : String) (v : Any) : Event :=
  { ev with fields := ev.fields.set k v }

/-! ## `factory.go` -/

/-- The struct `link` of `factory.go`. -/
structure link where
  TraceID : String
  ParentID : String
  LinkTraceID : String
  LinkSpanID : String
  AnnotationType : String

/-- The method `Event.Add` on a `link` when it succeeds: one `AddField` per
struct field under the name of its `json` tag, in declaration order; the
field tagged `omitempty` is skipped when it is the empty string. -/
def Event.Add (ev : Event) (l : link) : Event :=
  let ev1 := ev.AddField "trace.trace_id" (.string l.TraceID)
  let ev2 := if l.ParentID = "" then ev1 else ev1.AddField "trace.parent_id" (.string l.ParentID)
  let ev3 := ev2.AddField "trace.link.trace_id" (.string l.LinkTraceID)
  let ev4 := ev3.AddField "trace.link.span_id" (.string l.LinkSpanID)
  ev4.AddField "meta.annotation_type" (.string l.AnnotationType)

/-- The struct `honeycombExporter`. The callback `onError` and the logger
are not fields here: their calls are recorded in the `World`. -/
structure honeycombExporter where
  builder : Builder
  sampleRateAttribute : String

/-- Which libhoney calls fail. Calls are numbered by the position of their
link in the traversal (each link has one `Add` and one `Send`); `none` is a
nil error, `some msg` an error with that message. `sendSpanLinks` always
passes a `link` struct to `Add`, and libhoney's `Add` has no error path for a
struct: in a run of the exporter `add` is `none` everywhere. The component
is there so that the error branch of the source has a meaning and statements
can range over it. -/
structure Outcomes where
  add : Nat → Option String
  send : Nat → Option String

/-- What the exporter has done to the outside so far: the events handed to
`Send`, the errors passed to `onError`, and the lines written with
`logger.Error`, each in order. -/
structure World where
  sent : List Event
  onErrorCalls : List String
  logged : List String
deriving DecidableEq

/-- Nothing done yet. -/
def World.init : World := ⟨[], [], []⟩

/-- The two statements `e.logger.Error(err.Error()); e.onError(err)`. -/
def World.report (w : World) (err : String) : World :=
  { w with logged := w.logged ++ [err], onErrorCalls := w.onErrorCalls ++ [err] }

/-- The first loop over `resourceAttrs` in `sendSpanLinks`: every entry
becomes a field, and the entry `service.name` also sets the dataset. -/
def addResourceAttrs (fmtFloat : Float64 → String) (resourceAttrs : GoMap) (ev : Event) : Event :=
  resourceAttrs.entries.foldl
    (fun ev kv =>
      let ev1 := ev.AddField kv.1 kv.2
      if kv.1 = "service.name" then { ev1 with Dataset := sprintV fmtFloat kv.2 } else ev1)
    ev

/-- The second loop: every flattened link attribute becomes a field. -/
def addLinkAttrs (attrs : GoMap) (ev : Event) : Event :=
  attrs.entries.foldl (fun ev kv => ev.AddField kv.1 kv.2) ev

/-- The value of type `link` built for the link `l` of `span`. -/
def mkLink (span : Span) (l : SpanLink) : link :=
  { TraceID := getHoneycombTraceID l.traceID
    ParentID := l.spanID.String
    LinkTraceID := getHoneycombTraceID span.traceID
    LinkSpanID := span.spanID.String
    AnnotationType := "link" }

/-- The event that one round of the loop of `sendSpanLinks` hands to `Send`,
given the result `addErr` of its `Add`. In a run `addErr` is `none` and the
`Add` writes the fields of the `link` struct. The source does not say what
an `Add` that returns an error has written; the branch `some _`, which no
run takes, leaves the event as `NewEvent` made it. The round goes on to the
attribute loops in both cases. -/
def linkEvent (e : honeycombExporter) (fmtFloat : Float64 → String) (addErr : Option String)
    (span : Span) (resourceAttrs : GoMap) (l : SpanLink) : Event :=
  let ev := e.builder.NewEvent
  let ev1 := match addErr with
    | none => ev.Add (mkLink span l)
    | some _ => ev
  let ev2 := addResourceAttrs fmtFloat resourceAttrs ev1
  let attrs := spanAttributesToMap l.attributes
  addLinkAttrs attrs ev2

/-- One round of the loop of `sendSpanLinks`, for the link `l`. -/
def sendSpanLinks.round (e : honeycombExporter) (fmtFloat : Float64 → String) (o : Outcomes)
    (span : Span) (resourceAttrs : GoMap) (w : World) (l : SpanLink) : World :=
  let n := w.sent.length
  let w1 := match o.add n with
    | none => w
    | some err => w.report err
  let ev := linkEvent e fmtFloat (o.add n) span resourceAttrs l
  let w2 := { w1 with sent := w1.sent ++ [ev] }
  match o.send n with
  | none => w2
  | some err => w2.report err

/-- The method `sendSpanLinks` of `factory.go`. -/
def sendSpanLinks (e : honeycombExporter) (fmtFloat : Float64 → String) (o : Outcomes)
    (span : Span) (resourceAttrs : GoMap) (w : World) : World :=
  span.links.foldl (sendSpanLinks.round e fmtFloat o span resourceAttrs) w

/-- The event `ev` that `pushTraceData` builds for every span before it
calls `sendSpanLinks`; it is never sent. -/
def spanEvent (e : honeycombExporter) (resourceAttrs : GoMap) (lib : InstrumentationScope)
    (span : Span) : Event :=
  let ev := e.builder.NewEvent
  let ev1 := resourceAttrs.entries.foldl (fun ev kv => ev.AddField kv.1 kv.2) ev
  let ev2 := if lib.name ≠ "" then ev1.AddField "library.name" (.string lib.name) else ev1
  let ev3 := if lib.version ≠ "" then ev2.AddField "library.version" (.string lib.version) else ev2
  { ev3 with Timestamp := timestampToTime span.startTimestamp }

/-- The method `pushTraceData` of `factory.go`: the world after the push and
the returned error (`errs`, which nothing assigns). -/
def pushTraceData (e : honeycombExporter) (fmtFloat : Float64 → String) (o : Outcomes)
    (td : Traces) (w : World) : World × Option String :=
  let errs : Option String := none
  let w1 := td.foldl
    (fun w rsSpan =>
      let resourceAttrs := spanAttributesToMap rsSpan.resource
      rsSpan.scopeSpans.foldl
        (fun w ilsSpan =>
          ilsSpan.spans.foldl
            (fun w span =>
              let _ev := spanEvent e resourceAttrs ilsSpan.scope span
              sendSpanLinks e fmtFloat o span resourceAttrs w)
            w)
        w)
    w
  (w1, errs)

/-! ## What the specification says of the traversal -/

/-- The links of a batch in resource, scope, span, link order, each with its
containing span and the flattened attributes of its resource. -/
def allLinks (td : Traces) : List (GoMap × Span × SpanLink) :=
  td.flatMap (fun rs =>
    rs.scopeSpans.flatMap (fun ss =>
      ss.spans.flatMap (fun sp =>
        sp.links.map (fun l => (spanAttributesToMap rs.resource, sp, l)))))

/-- The kinds of value that flattening keeps, with the Go value kept. -/
def Value.scalar? : Value → Option Any
  | .str s => some (.string s)
  | .bool b => some (.bool b)
  | .int i => some (.int64 i)
  | .double f => some (.float64 f)
  | _ => none

/-- The events of a list of links when the first of them is link number `n`
of the traversal: link number `n + i` meets the outcome `o.add (n + i)`. -/
def eventsFrom (e : honeycombExporter) (fmtFloat : Float64 → String) (o : Outcomes) :
    Nat → List (GoMap × Span × SpanLink) → List Event
  | _, [] => []
  | n, x :: xs => linkEvent e fmtFloat (o.add n) x.2.1 x.1 x.2.2 :: eventsFrom e fmtFloat o (n + 1) xs

/-- The number of links of a batch, summed over resources, scopes and
spans. -/
def countLinks (td : Traces) : Nat :=
  (td.map (fun rs =>
    (rs.scopeSpans.map (fun ss => (ss.spans.map (fun sp => sp.links.length)).sum)).sum)).sum

/-! ## Sample data -/

/-- The trace id `4bf92f3577b34da6a3ce929d0e0e4736`. -/
def sampleTraceID : TraceID :=
  ⟨[0x4b, 0xf9, 0x2f, 0x35, 0x77, 0xb3, 0x4d, 0xa6,
    0xa3, 0xce, 0x92, 0x9d, 0x0e, 0x0e, 0x47, 0x36], rfl⟩

/-- The span id `00f067aa0ba902b7`. -/
def sampleSpanID : SpanID := ⟨[0x00, 0xf0, 0x67, 0xaa, 0x0b, 0xa9, 0x02, 0xb7], rfl⟩

/-- A link to the sample span with the given attributes. -/
def sampleLink (attrs : Map) : SpanLink := ⟨sampleTraceID, sampleSpanID, attrs⟩

/-- A batch of one resource, one scope and one span carrying the given
links. -/
def sampleBatch (resource : Map) (links : List SpanLink) : Traces :=
  [⟨resource, [⟨⟨"lib", "1"⟩, [⟨sampleTraceID, sampleSpanID, 1000000000, links⟩]⟩]⟩]

/-- An exporter whose builder has the dataset `default`. -/
def sampleExporter : honeycombExporter := ⟨⟨"default"⟩, ""⟩

/-- A rendering of floats for the samples. -/
def sampleFmtFloat : Float64 → String := fun _ => "0"

/-- Every call succeeds. -/
def allSucceed : Outcomes := ⟨fun _ => none, fun _ => none⟩

/-- Every `Add` fails, every `Send` succeeds. -/
def addFails : Outcomes := ⟨fun _ => some "add failed", fun _ => none⟩

/-- Every `Add` succeeds, every `Send` fails. -/
def sendFails : Outcomes := ⟨fun _ => none, fun _ => some "send failed"⟩

/-- Every `Add` and every `Send` fails. -/
def allFail : Outcomes := ⟨fun _ => some "add failed", fun _ => some "send failed"⟩

/-- The all-zero span id. -/
def zeroSpanID : SpanID := ⟨[0, 0, 0, 0, 0, 0, 0, 0], rfl⟩

/-- The trace id `00000000000000004bf92f3577b34da6`, a 64-bit id padded with
zeros. -/
def paddedTraceID : TraceID :=
  ⟨[0, 0, 0, 0, 0, 0, 0, 0, 0x4b, 0xf9, 0x2f, 0x35, 0x77, 0xb3, 0x4d, 0xa6], rfl⟩

/-- The trace id `4bf92f3577b34da60000000000000000`. -/
def shiftedTraceID : TraceID :=
  ⟨[0x4b, 0xf9, 0x2f, 0x35, 0x77, 0xb3, 0x4d, 0xa6, 0, 0, 0, 0, 0, 0, 0, 0], rfl⟩

/-- The names of the four id fields of a link event. -/
def idFieldNames : List String :=
  ["trace.trace_id", "trace.parent_id", "trace.link.trace_id", "trace.link.span_id"]

/-! ## What the specification says of the error callback -/

/-- The errors of the libhoney calls made for a list of links when the first
of them is link number `n` of the traversal: for each link in order, the
error of its `Add` if it failed, then the error of its `Send` if it
failed. -/
def errorsFrom (o : Outcomes) : Nat → List (GoMap × Span × SpanLink) → List String
  | _, [] => []
  | n, _ :: xs => (o.add n).toList ++ (o.send n).toList ++ errorsFrom o (n + 1) xs

/-! ## Hex numerals -/

theorem hexFixed_length (w n : Nat) : (hexFixed w n).length = w := by
  induction w generalizing n with
  | zero => rfl
  | succ w ih => simp [hexFixed, ih]

theorem hexFixed_zero (j : Nat) : hexFixed j 0 = List.replicate j '0' := by
  induction j with
  | zero => rfl
  | succ j ih =>
    have h0 : hexDigit 0 = '0' := rfl
    simp only [hexFixed, Nat.zero_div, Nat.zero_mod, ih, h0]
    exact (List.replicate_succ' j '0').symm

theorem hexFixed_pad (k j u : Nat) (h : u < 16 ^ k) :
    hexFixed (j + k) u = List.replicate j '0' ++ hexFixed k u := by
  induction k generalizing u with
  | zero =>
    have hu : u = 0 := by simpa using h
    subst hu
    simp [hexFixed, hexFixed_zero]
  | succ k ih =>
    have h2 : u / 16 < 16 ^ k := by
      rw [Nat.div_lt_iff_lt_mul (by norm_num)]
      rw [pow_succ] at h
      exact h
    rw [← Nat.add_assoc]
    simp only [hexFixed, ih (u / 16) h2, List.append_assoc]

theorem hexDigitsLoop_eq (fuel u : Nat) (buf : List Char) (hf : 0 < fuel)
    (h : u < 16 ^ fuel) :
    ∃ k, k ≤ fuel ∧ u < 16 ^ k ∧ hexDigitsLoop fuel u buf = hexFixed k u ++ buf := by
  induction fuel generalizing u buf with
  | zero => exact absurd hf (Nat.lt_irrefl 0)
  | succ fuel ih =>
    by_cases hu : u < 16
    · refine ⟨1, by omega, by simpa using hu, ?_⟩
      simp [hexDigitsLoop, hu, hexFixed, Nat.mod_eq_of_lt hu]
    · have hfuel : 0 < fuel := by
        rcases Nat.eq_zero_or_pos fuel with h0 | h0
        · subst h0
          simp at h
          omega
        · exact h0
      have h2 : u / 16 < 16 ^ fuel := by
        rw [Nat.div_lt_iff_lt_mul (by norm_num)]
        rw [pow_succ] at h
        exact h
      obtain ⟨k, hk, hlt, heq⟩ := ih (u / 16) (hexDigit (u % 16) :: buf) hfuel h2
      refine ⟨k + 1, by omega, ?_, ?_⟩
      · rw [pow_succ]
        rw [Nat.div_lt_iff_lt_mul (by norm_num)] at hlt
        exact hlt
      · simp [hexDigitsLoop, hu, heq, hexFixed]

theorem sprintf016x_eq (u : Nat) (h : u < 2 ^ 64) : sprintf016x u = hexFixed 16 u := by
  unfold sprintf016x fmtHexUint64
  rw [Nat.mod_eq_of_lt h]
  obtain ⟨k, hk, hlt, heq⟩ := hexDigitsLoop_eq 16 u [] (by norm_num) (by norm_num; omega)
  rw [heq, List.append_nil, List.leftpad, hexFixed_length]
  have h16 : 16 = (16 - k) + k := by omega
  conv_rhs => rw [h16]
  exact (hexFixed_pad k (16 - k) u hlt).symm

theorem hexDigit_isLowerHex (d : Nat) : isLowerHex (hexDigit d) = true := by
  by_cases h : d < 16
  · interval_cases d <;> decide
  · have : hexDigit d = '0' := by
      unfold hexDigit
      rw [List.getD_eq_default]
      simp [ldigits]
      omega
    rw [this]
    decide

theorem hexFixed_isLowerHex (w n : Nat) : ∀ c ∈ hexFixed w n, isLowerHex c = true := by
  induction w generalizing n with
  | zero => intro c hc; simp [hexFixed] at hc
  | succ w ih =>
    intro c hc
    simp only [hexFixed, List.mem_append, List.mem_singleton] at hc
    rcases hc with hc | hc
    · exact ih _ c hc
    · rw [hc]; exact hexDigit_isLowerHex _

/-! ## Big-endian values -/

theorem foldl_beValue (l : List Byte) (acc : Nat) :
    l.foldl (fun acc x => acc * 256 + x.val) acc = acc * 256 ^ l.length + beValue l := by
  induction l generalizing acc with
  | nil => simp [beValue]
  | cons b bs ih =>
    simp only [List.foldl_cons, ih, beValue, List.length_cons, pow_succ]
    ring

theorem bigEndianUint64_eq (b : List Byte) : bigEndianUint64 b = beValue (b.take 8) := by
  unfold bigEndianUint64
  rw [foldl_beValue]
  simp

theorem beValue_lt (l : List Byte) : beValue l < 256 ^ l.length := by
  induction l with
  | nil => simp [beValue]
  | cons b bs ih =>
    simp only [beValue, List.length_cons, pow_succ]
    have hb : b.val < 256 := b.isLt
    nlinarith

theorem beValue_eq_zero (l : List Byte) : beValue l = 0 ↔ ∀ b ∈ l, b = 0 := by
  induction l with
  | nil => simp [beValue]
  | cons b bs ih =>
    simp only [beValue, List.mem_cons, forall_eq_or_imp, Nat.add_eq_zero, ← ih]
    constructor
    · rintro ⟨h1, h2⟩
      refine ⟨?_, h2⟩
      rcases Nat.mul_eq_zero.1 h1 with h | h
      · exact Fin.ext h
      · exact absurd h (by positivity)
    · rintro ⟨h1, h2⟩
      exact ⟨by simp [h1], h2⟩

theorem beValue_lt_uint64 (l : List Byte) (h : l.length ≤ 8) : beValue l < 2 ^ 64 := by
  have h1 := beValue_lt l
  have h2 : (256 : Nat) ^ l.length ≤ 256 ^ 8 := Nat.pow_le_pow_right (by norm_num) h
  have h3 : (256 : Nat) ^ 8 = 2 ^ 64 := by norm_num
  omega

theorem getHoneycombTraceID_eq (t : TraceID) :
    getHoneycombTraceID t =
      if beValue (t.bytes.take 8) = 0 then String.mk (hexFixed 16 (beValue (t.bytes.drop 8)))
      else String.mk (hexFixed 16 (beValue (t.bytes.take 8))
        ++ hexFixed 16 (beValue (t.bytes.drop 8))) := by
  have hlen := t.size
  have hd : (t.bytes.drop 8).take 8 = t.bytes.drop 8 := by
    apply List.take_of_length_le
    simp [hlen]
  have ht : (t.bytes.take 8).take 8 = t.bytes.take 8 := by
    apply List.take_of_length_le
    simp
  have hlow : beValue (t.bytes.drop 8) < 2 ^ 64 := beValue_lt_uint64 _ (by simp [hlen])
  have hhigh : beValue (t.bytes.take 8) < 2 ^ 64 := beValue_lt_uint64 _ (by simp)
  simp only [getHoneycombTraceID, traceIDShortLength, bigEndianUint64_eq, hd, ht,
    sprintf016x_eq _ hlow, sprintf016x_eq _ hhigh]
  by_cases h : beValue (t.bytes.take 8) = 0 <;> simp [h]

theorem beValue_eq_zero_iff_all (l : List Byte) :
    beValue l = 0 ↔ l.all (fun b => b == 0) = true := by
  rw [beValue_eq_zero]
  simp

/-- C1: for every 16-byte trace id, with high the big-endian value of bytes
0..7 and low that of bytes 8..15, `getHoneycombTraceID` returns the 16-digit
zero-padded lowercase hex numeral of low when high is zero, and the 16-digit
numeral of high followed by that of low otherwise; the two ids of the
specification give `4bf92f3577b34da6` and
`4bf92f3577b34da6a3ce929d0e0e4736`. -/
theorem getHoneycombTraceID_high_low (t : TraceID) :
    (getHoneycombTraceID t =
      if beValue (t.bytes.take 8) = 0 then String.mk (hexFixed 16 (beValue (t.bytes.drop 8)))
      else String.mk (hexFixed 16 (beValue (t.bytes.take 8))
        ++ hexFixed 16 (beValue (t.bytes.drop 8))))
    ∧ getHoneycombTraceID
        ⟨[0, 0, 0, 0, 0, 0, 0, 0, 0x4b, 0xf9, 0x2f, 0x35, 0x77, 0xb3, 0x4d, 0xa6], rfl⟩
      = "4bf92f3577b34da6"
    ∧ getHoneycombTraceID
        ⟨[0x4b, 0xf9, 0x2f, 0x35, 0x77, 0xb3, 0x4d, 0xa6,
          0xa3, 0xce, 0x92, 0x9d, 0x0e, 0x0e, 0x47, 0x36], rfl⟩
      = "4bf92f3577b34da6a3ce929d0e0e4736" :=
  ⟨getHoneycombTraceID_eq t, by decide, by decide⟩

/-- C2: for every 16-byte trace id the result of `getHoneycombTraceID` has
length 16 when bytes 0..7 are all zero and length 32 when they are not, so
it has length 32 exactly when some byte among them is non-zero; every
character of it is one of `0-9a-f`. -/
theorem getHoneycombTraceID_length_hex (t : TraceID) :
    ((getHoneycombTraceID t).length
        = if (t.bytes.take 8).all (fun b => b == 0) then 16 else 32)
    ∧ ((getHoneycombTraceID t).length = 32 ↔ (t.bytes.take 8).any (fun b => b != 0) = true)
    ∧ (getHoneycombTraceID t).data.all isLowerHex = true := by
  have hlen : (getHoneycombTraceID t).length
      = if (t.bytes.take 8).all (fun b => b == 0) then 16 else 32 := by
    rw [getHoneycombTraceID_eq]
    by_cases h : beValue (t.bytes.take 8) = 0
    · rw [if_pos h, if_pos ((beValue_eq_zero_iff_all _).1 h)]
      simp [String.length, hexFixed_length]
    · rw [if_neg h, if_neg (fun h2 => h ((beValue_eq_zero_iff_all _).2 h2))]
      simp [String.length, hexFixed_length]
  refine ⟨hlen, ?_, ?_⟩
  · rw [hlen]
    by_cases h : (t.bytes.take 8).all (fun b => b == 0) = true
    · rw [if_pos h]
      have h2 : ¬ ((t.bytes.take 8).any (fun b => b != 0) = true) := by
        intro h3
        rw [List.any_eq_true] at h3
        obtain ⟨b, hb, hne⟩ := h3
        rw [List.all_eq_true] at h
        have := h b hb
        simp_all
      simp [h2]
    · rw [if_neg h]
      have h2 : (t.bytes.take 8).any (fun b => b != 0) = true := by
        rw [List.any_eq_true]
        by_contra h3
        apply h
        rw [List.all_eq_true]
        intro b hb
        by_contra h4
        exact h3 ⟨b, hb, by simpa using h4⟩
      simp [h2]
  · rw [getHoneycombTraceID_eq, List.all_eq_true]
    by_cases h : beValue (t.bytes.take 8) = 0
    · rw [if_pos h]
      exact hexFixed_isLowerHex _ _
    · rw [if_neg h]
      intro c hc
      rcases List.mem_append.1 hc with hc | hc
      · exact hexFixed_isLowerHex _ _ c hc
      · exact hexFixed_isLowerHex _ _ c hc

/-! ## Span ids -/

theorem hexDigit_mem_ldigits (d : Nat) : hexDigit d ∈ ldigits := by
  have h := hexDigit_isLowerHex d
  unfold isLowerHex at h
  simpa using h

theorem hexEncode_length (bs : List Byte) : (hexEncode bs).length = 2 * bs.length := by
  induction bs with
  | nil => rfl
  | cons b bs ih =>
    simp only [hexEncode, List.flatMap_cons, List.length_append, List.length_cons,
      List.length_nil] at ih ⊢
    omega

theorem hexEncode_mem_ldigits (bs : List Byte) : ∀ c ∈ hexEncode bs, c ∈ ldigits := by
  intro c hc
  simp only [hexEncode, List.mem_flatMap, List.mem_cons, List.mem_singleton,
    List.not_mem_nil, or_false] at hc
  obtain ⟨b, _, hb | hb⟩ := hc
  · rw [hb]; exact hexDigit_mem_ldigits _
  · rw [hb]; exact hexDigit_mem_ldigits _

theorem utf8EncodeChar_ldigits : ∀ c ∈ ldigits, (String.utf8EncodeChar c).length = 1 := by
  decide

theorem stringBytes_length (cs : List Char) (h : ∀ c ∈ cs, c ∈ ldigits) :
    (stringBytes (String.mk cs)).length = cs.length := by
  unfold stringBytes
  rw [List.length_map]
  induction cs with
  | nil => rfl
  | cons c cs ih =>
    simp only [List.flatMap_cons, List.length_append, List.length_cons]
    rw [utf8EncodeChar_ldigits c (h c (List.mem_cons_self _ _)),
      ih (fun d hd => h d (List.mem_cons_of_mem _ hd))]
    omega

theorem getHoneycombSpanID_length (id : SpanID) (h : id.IsEmpty = false) :
    (getHoneycombSpanID id).length = 32 := by
  simp only [getHoneycombSpanID, h, SpanID.String, fmtSx, Bool.not_false, if_true,
    Bool.false_eq_true, if_false, String.length]
  rw [hexEncode_length, stringBytes_length _ (hexEncode_mem_ldigits _), hexEncode_length,
    id.size]

/-- C3: on the span id `00f067aa0ba902b7` the method `String` gives the
16-character hex encoding `00f067aa0ba902b7`, but `getHoneycombSpanID` gives
the 32-character hex encoding of that text,
`30306630363761613062613930326237`. -/
theorem getHoneycombSpanID_hex_of_text :
    getHoneycombSpanID ⟨[0x00, 0xf0, 0x67, 0xaa, 0x0b, 0xa9, 0x02, 0xb7], rfl⟩
      = "30306630363761613062613930326237"
    ∧ getHoneycombSpanID ⟨[0x00, 0xf0, 0x67, 0xaa, 0x0b, 0xa9, 0x02, 0xb7], rfl⟩
      ≠ "00f067aa0ba902b7"
    ∧ SpanID.String ⟨[0x00, 0xf0, 0x67, 0xaa, 0x0b, 0xa9, 0x02, 0xb7], rfl⟩
      = "00f067aa0ba902b7" := by
  decide

/-- C4: `getHoneycombSpanID` returns the empty string exactly when all eight
bytes of the span id are zero, and it never returns `0000000000000000`. -/
theorem getHoneycombSpanID_empty_iff (id : SpanID) :
    (getHoneycombSpanID id = "" ↔ id.bytes.all (fun b => b.val == 0) = true)
    ∧ getHoneycombSpanID id ≠ "0000000000000000" := by
  cases h : id.IsEmpty with
  | true =>
    have he : getHoneycombSpanID id = "" := by simp [getHoneycombSpanID, h]
    refine ⟨⟨fun _ => h, fun _ => he⟩, ?_⟩
    rw [he]
    decide
  | false =>
    have hl := getHoneycombSpanID_length id h
    refine ⟨⟨fun he => ?_, fun ha => ?_⟩, fun he => ?_⟩
    · rw [he] at hl
      exact absurd hl (by decide)
    · unfold SpanID.IsEmpty at h
      rw [h] at ha
      exact absurd ha (by decide)
    · rw [he] at hl
      exact absurd hl (by decide)

/-! ## Go maps -/

theorem GoMap.get?_empty (k : String) : GoMap.empty.get? k = none := rfl

theorem find?_filter_ne (es : List (String × Any)) (k k' : String) (h : k' ≠ k) :
    (es.filter (fun e => e.1 != k)).find? (fun e => e.1 == k')
      = es.find? (fun e => e.1 == k') := by
  induction es with
  | nil => rfl
  | cons e es ih =>
    by_cases he : e.1 = k
    · have h1 : (e.1 != k) = false := by simp [he]
      have h2 : (e.1 == k') = false := by
        simp only [beq_eq_false_iff_ne, ne_eq, he]
        exact fun h3 => h h3.symm
      simp only [List.filter_cons, h1, List.find?_cons, h2, Bool.false_eq_true, if_false, ih]
    · have h1 : (e.1 != k) = true := by simp [he]
      by_cases he2 : e.1 = k'
      · have h2 : (e.1 == k') = true := by simp [he2]
        simp only [List.filter_cons, h1, List.find?_cons, h2, if_true]
      · have h2 : (e.1 == k') = false := by simp [he2]
        simp only [List.filter_cons, h1, List.find?_cons, h2, ih, if_true]

theorem GoMap.get?_set (m : GoMap) (k : String) (v : Any) (k' : String) :
    (m.set k v).get? k' = if k' = k then some v else m.get? k' := by
  unfold GoMap.get? GoMap.set
  by_cases h : k' = k
  · have h2 : (k == k') = true := by simp [h]
    simp only [List.find?_cons, h2, if_pos h, Option.map_some']
  · have h2 : (k == k') = false := by
      simp only [beq_eq_false_iff_ne, ne_eq]
      exact fun h3 => h h3.symm
    simp only [List.find?_cons, h2, if_neg h, find?_filter_ne _ _ _ h]

theorem GoMap.mem_keys_iff (m : GoMap) (k : String) :
    k ∈ m.keys ↔ (m.get? k).isSome = true := by
  unfold GoMap.keys GoMap.get?
  generalize m.entries = es
  induction es with
  | nil => simp
  | cons e es ih =>
    by_cases he : e.1 = k
    · have h2 : (e.1 == k) = true := by simp [he]
      simp only [List.find?_cons, h2, List.map_cons, List.mem_cons]
      simp [he]
    · have h2 : (e.1 == k) = false := by simp [he]
      have h3 : ¬ k = e.1 := fun h => he h.symm
      simp only [List.find?_cons, h2, ← ih, List.map_cons, List.mem_cons, h3, false_or]

/-! ## Flattening -/

theorem get?_visit (attrs : GoMap) (key : String) (value : Value) (k : String) :
    (spanAttributesToMap.visit attrs key value).get? k
      = if k = key then (match value.scalar? with
          | some a => some a
          | none => attrs.get? k)
        else attrs.get? k := by
  cases value <;> simp [spanAttributesToMap.visit, Value.scalar?, GoMap.get?_set]

theorem foldl_visit_get?_some (m : Map) (init : GoMap) (k : String) (a : Any)
    (h : (m.foldl (fun attrs kv => spanAttributesToMap.visit attrs kv.1 kv.2) init).get? k
      = some a) :
    init.get? k = some a ∨ ∃ v, (k, v) ∈ m ∧ v.scalar? = some a := by
  induction m generalizing init with
  | nil => exact Or.inl h
  | cons e es ih =>
    rw [List.foldl_cons] at h
    rcases ih _ h with h1 | ⟨v, hv, hs⟩
    · rw [get?_visit] at h1
      by_cases hk : k = e.1
      · rw [if_pos hk] at h1
        cases hsc : e.2.scalar? with
        | none =>
          rw [hsc] at h1
          exact Or.inl h1
        | some b =>
          rw [hsc] at h1
          simp only [Option.some.injEq] at h1
          refine Or.inr ⟨e.2, ?_, by rw [hsc, h1]⟩
          rw [hk]
          exact List.mem_cons_self _ _
      · rw [if_neg hk] at h1
        exact Or.inl h1
    · exact Or.inr ⟨v, List.mem_cons_of_mem _ hv, hs⟩

theorem foldl_visit_get?_isSome (m : Map) (init : GoMap) (k : String) :
    ((m.foldl (fun attrs kv => spanAttributesToMap.visit attrs kv.1 kv.2) init).get? k).isSome
      = true
    ↔ (init.get? k).isSome = true ∨ ∃ v, (k, v) ∈ m ∧ v.scalar?.isSome = true := by
  induction m generalizing init with
  | nil => simp
  | cons e es ih =>
    rw [List.foldl_cons, ih, get?_visit]
    constructor
    · rintro (h | ⟨v, hv, hs⟩)
      · by_cases hk : k = e.1
        · rw [if_pos hk] at h
          cases hsc : e.2.scalar? with
          | none =>
            rw [hsc] at h
            exact Or.inl h
          | some b =>
            refine Or.inr ⟨e.2, ?_, by rw [hsc]; rfl⟩
            rw [hk]
            exact List.mem_cons_self _ _
        · rw [if_neg hk] at h
          exact Or.inl h
      · exact Or.inr ⟨v, List.mem_cons_of_mem _ hv, hs⟩
    · rintro (h | ⟨v, hv, hs⟩)
      · by_cases hk : k = e.1
        · rw [if_pos hk]
          cases hsc : e.2.scalar? with
          | none => exact Or.inl h
          | some b => exact Or.inl rfl
        · rw [if_neg hk]
          exact Or.inl h
      · rcases List.mem_cons.1 hv with hv | hv
        · have h1 : k = e.1 := by rw [← hv]
          have h2 : v = e.2 := by rw [← hv]
          rw [if_pos h1, ← h2]
          cases hsc : v.scalar? with
          | none => rw [hsc] at hs; exact absurd hs (by decide)
          | some b => exact Or.inl rfl
        · exact Or.inr ⟨v, hv, hs⟩

theorem foldl_visit_get?_not_mem (m : Map) (init : GoMap) (k : String)
    (h : k ∉ m.map Prod.fst) :
    (m.foldl (fun attrs kv => spanAttributesToMap.visit attrs kv.1 kv.2) init).get? k
      = init.get? k := by
  induction m generalizing init with
  | nil => rfl
  | cons e es ih =>
    simp only [List.map_cons, List.mem_cons, not_or] at h
    rw [List.foldl_cons, ih _ h.2, get?_visit, if_neg h.1]

theorem foldl_visit_get?_unique (m : Map) (init : GoMap) (k : String) (v : Value)
    (hn : (m.map Prod.fst).Nodup) (hv : (k, v) ∈ m) :
    (m.foldl (fun attrs kv => spanAttributesToMap.visit attrs kv.1 kv.2) init).get? k
      = match v.scalar? with
        | some a => some a
        | none => init.get? k := by
  induction m generalizing init with
  | nil => exact absurd hv (List.not_mem_nil _)
  | cons e es ih =>
    rw [List.map_cons, List.nodup_cons] at hn
    rw [List.foldl_cons]
    rcases List.mem_cons.1 hv with hv | hv
    · have h1 : k = e.1 := by rw [← hv]
      have h2 : v = e.2 := by rw [← hv]
      rw [foldl_visit_get?_not_mem es _ k (by rw [h1]; exact hn.1), get?_visit, if_pos h1, h2]
    · have hk : k ≠ e.1 := by
        intro hk
        apply hn.1
        rw [← hk]
        exact List.mem_map.2 ⟨(k, v), hv, rfl⟩
      rw [ih _ hn.2 hv, get?_visit, if_neg hk]

theorem spanAttributesToMap_mem_keys (m : Map) (k : String) :
    k ∈ (spanAttributesToMap m).keys ↔ ∃ v, (k, v) ∈ m ∧ v.scalar?.isSome = true := by
  rw [GoMap.mem_keys_iff]
  unfold spanAttributesToMap
  rw [foldl_visit_get?_isSome]
  simp [GoMap.get?_empty]

/-- C5: for every attribute map `m` and key `k`, the flattened map contains
`k` exactly when `m` has an entry for `k` whose value is of kind string,
bool, int64 or float64; the value found under `k` is the payload of such an
entry, with its type; when the keys of `m` are unique it is the payload of
the entry of `k`, and `k` is absent when that entry is of another kind; the
keys of the output are keys of the input. -/
theorem spanAttributesToMap_keeps_scalars (m : Map) (k : String) :
    (k ∈ (spanAttributesToMap m).keys ↔ ∃ v, (k, v) ∈ m ∧ v.scalar?.isSome = true)
    ∧ (∀ a, (spanAttributesToMap m).get? k = some a → ∃ v, (k, v) ∈ m ∧ v.scalar? = some a)
    ∧ ((m.map Prod.fst).Nodup → ∀ v, (k, v) ∈ m → (spanAttributesToMap m).get? k = v.scalar?)
    ∧ (spanAttributesToMap m).keys ⊆ m.map Prod.fst := by
  have hiff := spanAttributesToMap_mem_keys m
  refine ⟨hiff k, ?_, ?_, ?_⟩
  · intro a ha
    rcases foldl_visit_get?_some m GoMap.empty k a ha with h | h
    · rw [GoMap.get?_empty] at h
      exact absurd h (by simp)
    · exact h
  · intro hn v hv
    unfold spanAttributesToMap
    rw [foldl_visit_get?_unique m GoMap.empty k v hn hv, GoMap.get?_empty]
    cases v.scalar? <;> rfl
  · intro k' hk'
    obtain ⟨v, hv, _⟩ := (hiff k').1 hk'
    exact List.mem_map.2 ⟨(k', v), hv, rfl⟩

/-! ## Timestamps -/

theorem unixToInternal_eq : unixToInternal = 62135596800 := by decide

theorem timeUnix_spec (sec nsec : Int) :
    (timeUnix sec nsec).UnixNano = sec * 1000000000 + nsec
    ∧ 0 ≤ (timeUnix sec nsec).nsec ∧ (timeUnix sec nsec).nsec < 1000000000 := by
  unfold timeUnix Time.UnixNano
  by_cases h : nsec < 0 ∨ nsec ≥ 1000000000
  · rw [if_pos h]
    rcases Int.lt_or_le nsec 0 with hneg | hpos
    · have h1 : nsec.tdiv 1000000000 = -((-nsec) / 1000000000) := by
        have h2 : nsec = -(-nsec) := by omega
        conv_lhs => rw [h2]
        rw [Int.neg_tdiv, Int.tdiv_eq_ediv (by omega) (by norm_num)]
      rw [h1]
      by_cases h3 : nsec - -(-nsec / 1000000000) * 1000000000 < 0
      · simp only [h3, if_true]
        refine ⟨by ring, by omega, by omega⟩
      · simp only [h3, if_false]
        refine ⟨by ring, by omega, by omega⟩
    · have h1 : nsec.tdiv 1000000000 = nsec / 1000000000 :=
        Int.tdiv_eq_ediv hpos (by norm_num)
      rw [h1]
      have h3 : ¬ (nsec - nsec / 1000000000 * 1000000000 < 0) := by omega
      simp only [h3, if_false]
      refine ⟨by ring, by omega, by omega⟩
  · rw [if_neg h]
    dsimp only
    refine ⟨by ring, by omega, by omega⟩

theorem timestampToTime_unixNano (ns : Nat) (h0 : 0 < ns) (h : ns < 2 ^ 64) :
    (timestampToTime ns).UnixNano = (if ns < 2 ^ 63 then (ns : Int) else (ns : Int) - 2 ^ 64)
    ∧ (timestampToTime ns).loc = Location.utc
    ∧ 0 ≤ (timestampToTime ns).nsec ∧ (timestampToTime ns).nsec < 1000000000 := by
  have hne : ns ≠ 0 := by omega
  have hspec := timeUnix_spec 0 (toInt64 ns)
  have hconv : toInt64 ns = (if ns < 2 ^ 63 then (ns : Int) else (ns : Int) - 2 ^ 64) := by
    unfold toInt64
    rw [Nat.mod_eq_of_lt h]
  have e : timestampToTime ns = (timeUnix 0 (toInt64 ns)).UTC := by
    simp only [timestampToTime, if_neg hne]
  have hu : ((timeUnix 0 (toInt64 ns)).UTC).UnixNano = (timeUnix 0 (toInt64 ns)).UnixNano := rfl
  rw [e]
  refine ⟨?_, rfl, hspec.2.1, hspec.2.2⟩
  rw [hu, hspec.1, hconv]
  ring

/-- C6, as the code has it: `timestampToTime 0` is the zero time value; for
a non-zero `ns` below `2 ^ 63` the result is the UTC instant exactly `ns`
nanoseconds after 1970-01-01T00:00:00Z, different from the zero time value,
and `timestampToTime 1000000000` is one second after the epoch. -/
theorem timestampToTime_instant (ns : Nat) (h0 : 0 < ns) (h : ns < 2 ^ 63) :
    timestampToTime 0 = Time.zero
    ∧ (timestampToTime ns).UnixNano = (ns : Int)
    ∧ (timestampToTime ns).loc = Location.utc
    ∧ 0 ≤ (timestampToTime ns).nsec ∧ (timestampToTime ns).nsec < 1000000000
    ∧ timestampToTime ns ≠ Time.zero
    ∧ timestampToTime 1000000000 = ⟨unixToInternal + 1, 0, Location.utc⟩ := by
  have h64 : ns < 2 ^ 64 := by omega
  obtain ⟨h1, h2, h3, h4⟩ := timestampToTime_unixNano ns h0 h64
  rw [if_pos h] at h1
  refine ⟨rfl, h1, h2, h3, h4, ?_, by decide⟩
  intro hz
  rw [hz] at h1
  have h5 : Time.zero.UnixNano = -62135596800000000000 := by decide
  rw [h5] at h1
  omega

/-- C6, witness: at `ns = 1000000000` the instant is one second after the
epoch. -/
theorem timestampToTime_instant_witness :
    0 < 1000000000 ∧ 1000000000 < 2 ^ 63
    ∧ (timestampToTime 1000000000).UnixNano = ((1000000000 : Nat) : Int) :=
  ⟨by decide, by decide,
    (timestampToTime_instant 1000000000 (by decide) (by decide)).2.1⟩

/-- C6, counterexample: at `ns = 2 ^ 64 - 1` the conversion `int64(ts)`
wraps to `-1`, and the result is the instant one nanosecond before the
epoch, not `2 ^ 64 - 1` nanoseconds after it. -/
theorem timestampToTime_wraps :
    (timestampToTime 18446744073709551615).UnixNano = -1
    ∧ (timestampToTime 18446744073709551615).UnixNano ≠ 18446744073709551615
    ∧ timestampToTime 18446744073709551615 = ⟨unixToInternal - 1, 999999999, Location.utc⟩ := by
  decide

/-! ## The traversal -/

theorem eventsFrom_append (e : honeycombExporter) (f : Float64 → String) (o : Outcomes)
    (n : Nat) (xs ys : List (GoMap × Span × SpanLink)) :
    eventsFrom e f o n (xs ++ ys)
      = eventsFrom e f o n xs ++ eventsFrom e f o (n + xs.length) ys := by
  induction xs generalizing n with
  | nil => rfl
  | cons x xs ih =>
    have h : n + (xs.length + 1) = n + 1 + xs.length := by omega
    rw [List.cons_append, eventsFrom, eventsFrom, ih, List.length_cons, h, List.cons_append]

theorem eventsFrom_length (e : honeycombExporter) (f : Float64 → String) (o : Outcomes)
    (n : Nat) (xs : List (GoMap × Span × SpanLink)) :
    (eventsFrom e f o n xs).length = xs.length := by
  induction xs generalizing n with
  | nil => rfl
  | cons x xs ih => simp only [eventsFrom, List.length_cons, ih]

theorem eventsFrom_getElem? (e : honeycombExporter) (f : Float64 → String) (o : Outcomes)
    (n : Nat) (xs : List (GoMap × Span × SpanLink)) (i : Nat) :
    (eventsFrom e f o n xs)[i]?
      = (xs[i]?).map (fun x => linkEvent e f (o.add (n + i)) x.2.1 x.1 x.2.2) := by
  induction xs generalizing n i with
  | nil => rfl
  | cons x xs ih =>
    cases i with
    | zero => simp [eventsFrom]
    | succ i =>
      have h : n + (i + 1) = n + 1 + i := by omega
      rw [eventsFrom, List.getElem?_cons_succ, List.getElem?_cons_succ, ih, h]

theorem round_sent (e : honeycombExporter) (f : Float64 → String) (o : Outcomes)
    (span : Span) (ra : GoMap) (w : World) (l : SpanLink) :
    (sendSpanLinks.round e f o span ra w l).sent
      = w.sent ++ eventsFrom e f o w.sent.length [(ra, span, l)] := by
  unfold sendSpanLinks.round
  cases ha : o.add w.sent.length <;> cases hs : o.send w.sent.length <;>
    simp [World.report, eventsFrom, ha, hs]

theorem foldl_sent {α : Type} (e : honeycombExporter) (f : Float64 → String) (o : Outcomes)
    (F : α → List (GoMap × Span × SpanLink)) (g : World → α → World)
    (hg : ∀ w x, (g w x).sent = w.sent ++ eventsFrom e f o w.sent.length (F x))
    (xs : List α) (w : World) :
    (xs.foldl g w).sent = w.sent ++ eventsFrom e f o w.sent.length (xs.flatMap F) := by
  induction xs generalizing w with
  | nil => simp [eventsFrom]
  | cons x xs ih =>
    rw [List.foldl_cons, ih, hg, List.flatMap_cons, eventsFrom_append, List.length_append,
      eventsFrom_length, List.append_assoc]

theorem sendSpanLinks_sent (e : honeycombExporter) (f : Float64 → String) (o : Outcomes)
    (span : Span) (ra : GoMap) (w : World) :
    (sendSpanLinks e f o span ra w).sent
      = w.sent ++ eventsFrom e f o w.sent.length (span.links.map (fun l => (ra, span, l))) := by
  unfold sendSpanLinks
  rw [foldl_sent e f o (fun l => [(ra, span, l)]) _ (round_sent e f o span ra)]
  congr 2
  induction span.links with
  | nil => rfl
  | cons l ls ih => simp [List.flatMap_cons, ih]

theorem pushTraceData_sent (e : honeycombExporter) (f : Float64 → String) (o : Outcomes)
    (td : Traces) (w : World) :
    (pushTraceData e f o td w).1.sent
      = w.sent ++ eventsFrom e f o w.sent.length (allLinks td) := by
  unfold pushTraceData allLinks
  simp only
  apply foldl_sent
  intro w rs
  apply foldl_sent
  intro w ss
  apply foldl_sent
  intro w sp
  exact sendSpanLinks_sent e f o sp _ w

theorem allLinks_length (td : Traces) : (allLinks td).length = countLinks td := by
  unfold allLinks countLinks
  rw [List.length_flatMap]
  congr 1
  apply List.map_congr_left
  intro rs _
  rw [Function.comp_apply, List.length_flatMap]
  congr 1
  apply List.map_congr_left
  intro ss _
  rw [Function.comp_apply, List.length_flatMap]
  congr 1
  apply List.map_congr_left
  intro sp _
  rw [Function.comp_apply, List.length_map]

theorem pushTraceData_sent_init (e : honeycombExporter) (f : Float64 → String)
    (o : Outcomes) (td : Traces) :
    (pushTraceData e f o td World.init).1.sent = eventsFrom e f o 0 (allLinks td) := by
  rw [pushTraceData_sent]
  rfl

theorem pushTraceData_getElem? (e : honeycombExporter) (f : Float64 → String)
    (o : Outcomes) (td : Traces) (i : Nat) :
    (pushTraceData e f o td World.init).1.sent[i]?
      = ((allLinks td)[i]?).map (fun x => linkEvent e f (o.add i) x.2.1 x.1 x.2.2) := by
  rw [pushTraceData_sent_init, eventsFrom_getElem?, Nat.zero_add]

/-- C7: for every batch and every assignment of outcomes, `pushTraceData`
hands to `Send` exactly one event per span link and nothing else: the number
of events is the number of links of the batch, the event at position `i` is
the one built from the link at position `i` in resource, scope, span, link
order, `sendSpanLinks` on a span with `N` links adds exactly `N` events, and
a batch without links sends nothing. -/
theorem pushTraceData_one_send_per_link (e : honeycombExporter) (f : Float64 → String)
    (o : Outcomes) (td : Traces) :
    (pushTraceData e f o td World.init).1.sent.length = countLinks td
    ∧ (pushTraceData e f o td World.init).1.sent.length = (allLinks td).length
    ∧ (∀ i, (pushTraceData e f o td World.init).1.sent[i]?
        = ((allLinks td)[i]?).map (fun x => linkEvent e f (o.add i) x.2.1 x.1 x.2.2))
    ∧ (∀ span ra w, (sendSpanLinks e f o span ra w).sent.length
        = w.sent.length + span.links.length)
    ∧ (countLinks td = 0 → (pushTraceData e f o td World.init).1.sent = []) := by
  have hs := pushTraceData_sent_init e f o td
  have hl : (pushTraceData e f o td World.init).1.sent.length = (allLinks td).length := by
    rw [hs, eventsFrom_length]
  refine ⟨by rw [hl, allLinks_length], hl, ?_, ?_, ?_⟩
  · exact pushTraceData_getElem? e f o td
  · intro span ra w
    rw [sendSpanLinks_sent, List.length_append, eventsFrom_length, List.length_map]
  · intro h0
    rw [← allLinks_length] at h0
    rw [hs, List.length_eq_zero.1 h0]
    rfl

/-! ## The fields and the dataset of a link event -/

theorem find?_none_of_not_mem (es : List (String × Any)) (k : String)
    (h : k ∉ es.map Prod.fst) : es.find? (fun e => e.1 == k) = none := by
  rw [List.find?_eq_none]
  intro x hx hk
  apply h
  rw [beq_iff_eq] at hk
  rw [← hk]
  exact List.mem_map.2 ⟨x, hx, rfl⟩

theorem foldl_resource_fields (f : Float64 → String) (es : List (String × Any))
    (hn : (es.map Prod.fst).Nodup) (ev : Event) (k : String) :
    (es.foldl
      (fun ev kv =>
        let ev1 := ev.AddField kv.1 kv.2
        if kv.1 = "service.name" then { ev1 with Dataset := sprintV f kv.2 } else ev1)
      ev).fields.get? k
      = match (es.find? (fun e => e.1 == k)).map Prod.snd with
        | some v => some v
        | none => ev.fields.get? k := by
  induction es generalizing ev with
  | nil => rfl
  | cons e es ih =>
    rw [List.map_cons, List.nodup_cons] at hn
    rw [List.foldl_cons, ih hn.2]
    have hstep : (if e.1 = "service.name"
        then { ev.AddField e.1 e.2 with Dataset := sprintV f e.2 }
        else ev.AddField e.1 e.2).fields.get? k
        = if k = e.1 then some e.2 else ev.fields.get? k := by
      by_cases hsn : e.1 = "service.name"
      · rw [if_pos hsn]
        exact GoMap.get?_set _ _ _ _
      · rw [if_neg hsn]
        exact GoMap.get?_set _ _ _ _
    by_cases hk : e.1 = k
    · have h2 : (e.1 == k) = true := by simp [hk]
      have h3 : es.find? (fun e => e.1 == k) = none :=
        find?_none_of_not_mem es k (by rw [← hk]; exact hn.1)
      simp only [List.find?_cons, h2, h3, Option.map_none', Option.map_some']
      rw [hstep, if_pos hk.symm]
    · have h2 : (e.1 == k) = false := by simp [hk]
      simp only [List.find?_cons, h2]
      rw [hstep, if_neg (fun h => hk h.symm)]

theorem foldl_resource_dataset (f : Float64 → String) (es : List (String × Any))
    (hn : (es.map Prod.fst).Nodup) (ev : Event) :
    (es.foldl
      (fun ev kv =>
        let ev1 := ev.AddField kv.1 kv.2
        if kv.1 = "service.name" then { ev1 with Dataset := sprintV f kv.2 } else ev1)
      ev).Dataset
      = match (es.find? (fun e => e.1 == "service.name")).map Prod.snd with
        | some v => sprintV f v
        | none => ev.Dataset := by
  induction es generalizing ev with
  | nil => rfl
  | cons e es ih =>
    rw [List.map_cons, List.nodup_cons] at hn
    rw [List.foldl_cons, ih hn.2]
    by_cases hk : e.1 = "service.name"
    · have h2 : (e.1 == "service.name") = true := by simp [hk]
      have h3 : es.find? (fun e => e.1 == "service.name") = none :=
        find?_none_of_not_mem es _ (by rw [← hk]; exact hn.1)
      simp only [List.find?_cons, h2, h3, Option.map_none', Option.map_some', if_pos hk]
    · have h2 : (e.1 == "service.name") = false := by simp [hk]
      simp only [List.find?_cons, h2, if_neg hk]
      rfl

theorem foldl_link_fields (es : List (String × Any)) (hn : (es.map Prod.fst).Nodup)
    (ev : Event) (k : String) :
    (es.foldl (fun ev kv => ev.AddField kv.1 kv.2) ev).fields.get? k
      = match (es.find? (fun e => e.1 == k)).map Prod.snd with
        | some v => some v
        | none => ev.fields.get? k := by
  induction es generalizing ev with
  | nil => rfl
  | cons e es ih =>
    rw [List.map_cons, List.nodup_cons] at hn
    rw [List.foldl_cons, ih hn.2]
    have hstep : (ev.AddField e.1 e.2).fields.get? k
        = if k = e.1 then some e.2 else ev.fields.get? k := GoMap.get?_set _ _ _ _
    by_cases hk : e.1 = k
    · have h2 : (e.1 == k) = true := by simp [hk]
      have h3 : es.find? (fun e => e.1 == k) = none :=
        find?_none_of_not_mem es k (by rw [← hk]; exact hn.1)
      simp only [List.find?_cons, h2, h3, Option.map_none', Option.map_some']
      rw [hstep, if_pos hk.symm]
    · have h2 : (e.1 == k) = false := by simp [hk]
      simp only [List.find?_cons, h2]
      rw [hstep, if_neg (fun h => hk h.symm)]

theorem foldl_link_dataset (es : List (String × Any)) (ev : Event) :
    (es.foldl (fun ev kv => ev.AddField kv.1 kv.2) ev).Dataset = ev.Dataset := by
  induction es generalizing ev with
  | nil => rfl
  | cons e es ih =>
    rw [List.foldl_cons, ih]
    rfl

theorem addResourceAttrs_fields (f : Float64 → String) (ra : GoMap) (ev : Event) (k : String) :
    (addResourceAttrs f ra ev).fields.get? k
      = match ra.get? k with
        | some v => some v
        | none => ev.fields.get? k :=
  foldl_resource_fields f ra.entries ra.nodup ev k

theorem addResourceAttrs_dataset (f : Float64 → String) (ra : GoMap) (ev : Event) :
    (addResourceAttrs f ra ev).Dataset
      = match ra.get? "service.name" with
        | some v => sprintV f v
        | none => ev.Dataset :=
  foldl_resource_dataset f ra.entries ra.nodup ev

theorem addLinkAttrs_fields (attrs : GoMap) (ev : Event) (k : String) :
    (addLinkAttrs attrs ev).fields.get? k
      = match attrs.get? k with
        | some v => some v
        | none => ev.fields.get? k :=
  foldl_link_fields attrs.entries attrs.nodup ev k

theorem addLinkAttrs_dataset (attrs : GoMap) (ev : Event) :
    (addLinkAttrs attrs ev).Dataset = ev.Dataset :=
  foldl_link_dataset attrs.entries ev

theorem Event.Add_dataset (ev : Event) (l : link) : (ev.Add l).Dataset = ev.Dataset := by
  unfold Event.Add
  by_cases h : l.ParentID = "" <;> simp [h, Event.AddField]

theorem Event.Add_annotation_type (ev : Event) (l : link) :
    (ev.Add l).fields.get? "meta.annotation_type" = some (Any.string l.AnnotationType) := by
  unfold Event.Add
  exact GoMap.get?_set _ _ _ _

theorem linkEvent_dataset (e : honeycombExporter) (f : Float64 → String) (a : Option String)
    (span : Span) (ra : GoMap) (l : SpanLink) :
    (linkEvent e f a span ra l).Dataset
      = match ra.get? "service.name" with
        | some v => sprintV f v
        | none => e.builder.Dataset := by
  unfold linkEvent
  simp only [addLinkAttrs_dataset, addResourceAttrs_dataset]
  cases a with
  | none => rw [Event.Add_dataset]; rfl
  | some _ => rfl

theorem linkEvent_isSome_congr (e : honeycombExporter) (f : Float64 → String)
    (a b : Option String) (h : a.isSome = b.isSome) (span : Span) (ra : GoMap) (l : SpanLink) :
    linkEvent e f a span ra l = linkEvent e f b span ra l := by
  cases a <;> cases b
  · rfl
  · simp at h
  · simp at h
  · rfl

theorem linkEvent_annotation_type (e : honeycombExporter) (f : Float64 → String)
    (span : Span) (ra : GoMap) (l : SpanLink)
    (hr : ra.get? "meta.annotation_type" = none)
    (hattr : (spanAttributesToMap l.attributes).get? "meta.annotation_type" = none) :
    (linkEvent e f none span ra l).fields.get? "meta.annotation_type"
      = some (Any.string "link") := by
  unfold linkEvent
  simp only [addLinkAttrs_fields, addResourceAttrs_fields, hr, hattr]
  exact Event.Add_annotation_type _ _

theorem sendSpanLinks_getElem? (e : honeycombExporter) (f : Float64 → String) (o : Outcomes)
    (span : Span) (ra : GoMap) (w : World) (i : Nat) :
    (sendSpanLinks e f o span ra w).sent[w.sent.length + i]?
      = (span.links[i]?).map (fun l => linkEvent e f (o.add (w.sent.length + i)) span ra l) := by
  rw [sendSpanLinks_sent, List.getElem?_append_right (Nat.le_add_right _ _),
    Nat.add_sub_cancel_left, eventsFrom_getElem?, List.getElem?_map, Option.map_map]
  rfl

/-- C8, as the code has it: for every span and every link on it whose `Add`
succeeds, when neither the flattened resource attributes nor the flattened
attributes of the link have the key `meta.annotation_type`, the event that
`sendSpanLinks` sends for that link has the field `meta.annotation_type`
equal to the string `link`. -/
theorem sendSpanLinks_annotation_type (e : honeycombExporter) (f : Float64 → String)
    (o : Outcomes) (span : Span) (ra : GoMap) (w : World) (i : Nat) (l : SpanLink)
    (hl : span.links[i]? = some l)
    (hadd : o.add (w.sent.length + i) = none)
    (hr : ra.get? "meta.annotation_type" = none)
    (hattr : (spanAttributesToMap l.attributes).get? "meta.annotation_type" = none) :
    ∃ ev, (sendSpanLinks e f o span ra w).sent[w.sent.length + i]? = some ev
      ∧ ev.fields.get? "meta.annotation_type" = some (Any.string "link") := by
  refine ⟨linkEvent e f none span ra l, ?_, linkEvent_annotation_type e f span ra l hr hattr⟩
  rw [sendSpanLinks_getElem?, hl, hadd]
  rfl

/-- C8, witness: a span with one link without attributes, under a resource
without attributes, every call succeeding. -/
theorem sendSpanLinks_annotation_type_witness :
    ∃ ev, (sendSpanLinks sampleExporter sampleFmtFloat allSucceed
        ⟨sampleTraceID, sampleSpanID, 0, [sampleLink []]⟩ GoMap.empty World.init).sent[0]?
          = some ev
      ∧ ev.fields.get? "meta.annotation_type" = some (Any.string "link") :=
  sendSpanLinks_annotation_type sampleExporter sampleFmtFloat allSucceed
    ⟨sampleTraceID, sampleSpanID, 0, [sampleLink []]⟩ GoMap.empty World.init 0 (sampleLink [])
    rfl rfl rfl rfl

/-- C8, counterexample: a link that carries the attribute
`meta.annotation_type = "span_event"` is sent with that value in the field,
a resource attribute of that name overwrites the constant alike, and the
event of a link whose `Add` fails is sent without the field. -/
theorem sendSpanLinks_annotation_type_overwritten :
    (sendSpanLinks sampleExporter sampleFmtFloat allSucceed
        ⟨sampleTraceID, sampleSpanID, 0,
          [sampleLink [("meta.annotation_type", Value.str "span_event")]]⟩
        GoMap.empty World.init).sent.map (fun ev => ev.fields.get? "meta.annotation_type")
      = [some (Any.string "span_event")]
    ∧ (sendSpanLinks sampleExporter sampleFmtFloat allSucceed
        ⟨sampleTraceID, sampleSpanID, 0, [sampleLink []]⟩
        (spanAttributesToMap [("meta.annotation_type", Value.bool true)])
        World.init).sent.map (fun ev => ev.fields.get? "meta.annotation_type")
      = [some (Any.bool true)]
    ∧ (sendSpanLinks sampleExporter sampleFmtFloat addFails
        ⟨sampleTraceID, sampleSpanID, 0, [sampleLink []]⟩ GoMap.empty
        World.init).sent.map (fun ev => ev.fields.get? "meta.annotation_type")
      = [none] := by
  decide

theorem allLinks_resource (td : Traces) (x : GoMap × Span × SpanLink) (h : x ∈ allLinks td) :
    ∃ rs ∈ td, x.1 = spanAttributesToMap rs.resource := by
  unfold allLinks at h
  simp only [List.mem_flatMap, List.mem_map] at h
  obtain ⟨rs, hrs, ss, _, sp, _, l, _, hx⟩ := h
  exact ⟨rs, hrs, by rw [← hx]⟩

/-- C9, as the code has it: the dataset of every link event emitted under a
resource is the `%v` rendering of the flattened resource attribute
`service.name` when the flattened resource attributes have that key, which
is so exactly when the resource has an entry `service.name` of kind string,
bool, int64 or float64; otherwise `sendSpanLinks` leaves the dataset as the
builder set it. -/
theorem pushTraceData_dataset (e : honeycombExporter) (f : Float64 → String) (o : Outcomes)
    (td : Traces) (i : Nat) (x : GoMap × Span × SpanLink) (h : (allLinks td)[i]? = some x) :
    ∃ ev, (pushTraceData e f o td World.init).1.sent[i]? = some ev
      ∧ ev.Dataset = (match x.1.get? "service.name" with
          | some v => sprintV f v
          | none => e.builder.Dataset)
      ∧ ∃ rs ∈ td, x.1 = spanAttributesToMap rs.resource
          ∧ ((x.1.get? "service.name").isSome = true
              ↔ ∃ v, ("service.name", v) ∈ rs.resource ∧ v.scalar?.isSome = true) := by
  refine ⟨linkEvent e f (o.add i) x.2.1 x.1 x.2.2, ?_, linkEvent_dataset _ _ _ _ _ _, ?_⟩
  · rw [pushTraceData_getElem?, h]
    rfl
  · obtain ⟨rs, hrs, hx⟩ := allLinks_resource td x (List.getElem?_mem h)
    refine ⟨rs, hrs, hx, ?_⟩
    rw [hx, ← GoMap.mem_keys_iff]
    exact spanAttributesToMap_mem_keys rs.resource "service.name"

/-- C9, witness: the only link of a batch whose resource has
`service.name = "checkout"`. -/
theorem pushTraceData_dataset_witness :
    ∃ ev, (pushTraceData sampleExporter sampleFmtFloat allSucceed
        (sampleBatch [("service.name", Value.str "checkout")] [sampleLink []])
        World.init).1.sent[0]? = some ev
      ∧ ev.Dataset = "checkout" := by
  obtain ⟨ev, h1, h2, _⟩ := pushTraceData_dataset sampleExporter sampleFmtFloat allSucceed
    (sampleBatch [("service.name", Value.str "checkout")] [sampleLink []]) 0
    (spanAttributesToMap [("service.name", Value.str "checkout")],
      ⟨sampleTraceID, sampleSpanID, 1000000000, [sampleLink []]⟩, sampleLink []) rfl
  exact ⟨ev, h1, h2⟩

/-- C9, counterexample: a resource whose attribute set contains the key
`service.name` with a value of kind bytes; the link event keeps the dataset
of the builder. -/
theorem pushTraceData_dataset_non_scalar :
    "service.name" ∈ (([("service.name", Value.bytes [1])] : Map).map Prod.fst)
    ∧ (pushTraceData sampleExporter sampleFmtFloat allSucceed
        (sampleBatch [("service.name", Value.bytes [1])] [sampleLink []])
        World.init).1.sent.map Event.Dataset = ["default"]
    ∧ sampleExporter.builder.Dataset = "default" := by
  decide

theorem pushTraceData_sent_outcomes (e : honeycombExporter) (f : Float64 → String)
    (o1 o2 : Outcomes) (td : Traces) :
    (pushTraceData e f o1 td World.init).1.sent.length
      = (pushTraceData e f o2 td World.init).1.sent.length
    ∧ (∀ i, (o1.add i).isSome = (o2.add i).isSome →
        (pushTraceData e f o1 td World.init).1.sent[i]?
          = (pushTraceData e f o2 td World.init).1.sent[i]?)
    ∧ ((∀ i, (o1.add i).isSome = (o2.add i).isSome) →
        (pushTraceData e f o1 td World.init).1.sent
          = (pushTraceData e f o2 td World.init).1.sent) := by
  have hpos : ∀ i, (o1.add i).isSome = (o2.add i).isSome →
      (pushTraceData e f o1 td World.init).1.sent[i]?
        = (pushTraceData e f o2 td World.init).1.sent[i]? := by
    intro i hi
    rw [pushTraceData_getElem?, pushTraceData_getElem?]
    cases (allLinks td)[i]? with
    | none => rfl
    | some x =>
      simp only [Option.map_some']
      rw [linkEvent_isSome_congr e f _ _ hi]
  refine ⟨?_, hpos, ?_⟩
  · rw [pushTraceData_sent_init, pushTraceData_sent_init, eventsFrom_length, eventsFrom_length]
  · intro hall
    apply List.ext_getElem?
    intro i
    exact hpos i (hall i)

/-- C10: the sequence of events that `pushTraceData` hands to `Send` is the
same for every assignment of outcomes a run can have, that is, with every
`Add` returning nil, for every assignment of success or failure to the
`Send` calls: the two runs hand over the same number of events, one per
link, and at every position the same fields and the same dataset, so a
failure on one link changes neither the number nor the content of the send
attempts for the links, spans, scopes and resources after it. -/
theorem pushTraceData_sent_same (e : honeycombExporter) (f : Float64 → String)
    (o1 o2 : Outcomes) (td : Traces)
    (h1 : ∀ i, o1.add i = none) (h2 : ∀ i, o2.add i = none) :
    (pushTraceData e f o1 td World.init).1.sent.length = countLinks td
    ∧ (pushTraceData e f o2 td World.init).1.sent.length = countLinks td
    ∧ (pushTraceData e f o1 td World.init).1.sent.map (fun ev => (ev.fields, ev.Dataset))
      = (pushTraceData e f o2 td World.init).1.sent.map (fun ev => (ev.fields, ev.Dataset))
    ∧ (∀ i : Nat, Option.map (fun ev : Event => (ev.fields, ev.Dataset))
          ((pushTraceData e f o1 td World.init).1.sent[i]?)
        = Option.map
          (fun x : GoMap × Span × SpanLink =>
            ((linkEvent e f none x.2.1 x.1 x.2.2).fields,
              (linkEvent e f none x.2.1 x.1 x.2.2).Dataset))
          ((allLinks td)[i]?)) := by
  have hall : ∀ i, (o1.add i).isSome = (o2.add i).isSome := by
    intro i
    rw [h1 i, h2 i]
  have hlen : ∀ o : Outcomes, (pushTraceData e f o td World.init).1.sent.length
      = countLinks td := by
    intro o
    rw [pushTraceData_sent_init, eventsFrom_length, allLinks_length]
  refine ⟨hlen o1, hlen o2, ?_, ?_⟩
  · rw [(pushTraceData_sent_outcomes e f o1 o2 td).2.2 hall]
  · intro i
    rw [pushTraceData_getElem?, h1 i, Option.map_map]
    rfl

/-- C10, witness: a batch with two links; the run in which every `Send`
fails hands over the same events as the run in which every call succeeds. -/
theorem pushTraceData_sent_same_witness :
    (pushTraceData sampleExporter sampleFmtFloat allSucceed
        (sampleBatch [("service.name", Value.str "checkout")]
          [sampleLink [], sampleLink [("env", Value.str "dev")]])
        World.init).1.sent.map (fun ev => (ev.fields, ev.Dataset))
      = (pushTraceData sampleExporter sampleFmtFloat sendFails
        (sampleBatch [("service.name", Value.str "checkout")]
          [sampleLink [], sampleLink [("env", Value.str "dev")]])
        World.init).1.sent.map (fun ev => (ev.fields, ev.Dataset))
    ∧ (pushTraceData sampleExporter sampleFmtFloat sendFails
        (sampleBatch [("service.name", Value.str "checkout")]
          [sampleLink [], sampleLink [("env", Value.str "dev")]])
        World.init).1.sent.length = 2
    ∧ (pushTraceData sampleExporter sampleFmtFloat sendFails
        (sampleBatch [("service.name", Value.str "checkout")]
          [sampleLink [], sampleLink [("env", Value.str "dev")]])
        World.init).1.onErrorCalls = ["send failed", "send failed"] :=
  ⟨(pushTraceData_sent_same sampleExporter sampleFmtFloat allSucceed sendFails
      (sampleBatch [("service.name", Value.str "checkout")]
        [sampleLink [], sampleLink [("env", Value.str "dev")]])
      (fun _ => rfl) (fun _ => rfl)).2.2.1,
    by decide, by decide⟩

/-! ## The merge of resource and link attributes -/

theorem linkEvent_fields (e : honeycombExporter) (f : Float64 → String) (a : Option String)
    (span : Span) (ra : GoMap) (l : SpanLink) (k : String) :
    (linkEvent e f a span ra l).fields.get? k
      = match (spanAttributesToMap l.attributes).get? k with
        | some v => some v
        | none =>
          match ra.get? k with
          | some v => some v
          | none =>
            match a with
            | none => (e.builder.NewEvent.Add (mkLink span l)).fields.get? k
            | some _ => none := by
  unfold linkEvent
  simp only [addLinkAttrs_fields, addResourceAttrs_fields]
  cases a <;> rfl

/-- C11: in the event sent for a link, a key that the flattened resource
attributes and the flattened link attributes both have holds the value of
the link attribute, and a key that only the flattened resource attributes
have holds the resource value. -/
theorem pushTraceData_merge (e : honeycombExporter) (f : Float64 → String) (o : Outcomes)
    (td : Traces) (i : Nat) (x : GoMap × Span × SpanLink) (k : String)
    (h : (allLinks td)[i]? = some x) :
    ∃ ev, (pushTraceData e f o td World.init).1.sent[i]? = some ev
      ∧ (∀ vr vl, x.1.get? k = some vr →
          (spanAttributesToMap x.2.2.attributes).get? k = some vl →
          ev.fields.get? k = some vl)
      ∧ (∀ vr, x.1.get? k = some vr →
          (spanAttributesToMap x.2.2.attributes).get? k = none →
          ev.fields.get? k = some vr) := by
  refine ⟨linkEvent e f (o.add i) x.2.1 x.1 x.2.2, ?_, ?_, ?_⟩
  · rw [pushTraceData_getElem?, h]
    rfl
  · intro vr vl _ hl
    rw [linkEvent_fields, hl]
  · intro vr hr hl
    rw [linkEvent_fields, hl, hr]

/-- C11, witness: the resource has `env = "prod"` and `region = "eu"`, the
link has `env = "dev"`; the event holds `env = "dev"` and `region = "eu"`. -/
theorem pushTraceData_merge_witness :
    (∃ ev, (pushTraceData sampleExporter sampleFmtFloat allSucceed
        (sampleBatch [("env", Value.str "prod"), ("region", Value.str "eu")]
          [sampleLink [("env", Value.str "dev")]])
        World.init).1.sent[0]? = some ev
      ∧ ev.fields.get? "env" = some (Any.string "dev"))
    ∧ (pushTraceData sampleExporter sampleFmtFloat allSucceed
        (sampleBatch [("env", Value.str "prod"), ("region", Value.str "eu")]
          [sampleLink [("env", Value.str "dev")]])
        World.init).1.sent.map (fun ev => ev.fields.get? "region")
      = [some (Any.string "eu")] := by
  refine ⟨?_, by decide⟩
  obtain ⟨ev, h1, h2, _⟩ := pushTraceData_merge sampleExporter sampleFmtFloat allSucceed
    (sampleBatch [("env", Value.str "prod"), ("region", Value.str "eu")]
      [sampleLink [("env", Value.str "dev")]]) 0
    (spanAttributesToMap [("env", Value.str "prod"), ("region", Value.str "eu")],
      ⟨sampleTraceID, sampleSpanID, 1000000000, [sampleLink [("env", Value.str "dev")]]⟩,
      sampleLink [("env", Value.str "dev")]) "env" rfl
  exact ⟨ev, h1, h2 (Any.string "prod") (Any.string "dev") (by decide) (by decide)⟩

/-! ## The fixed fields -/

theorem Event.Add_fields (ev : Event) (l : link) :
    (ev.Add l).fields.get? "trace.trace_id" = some (Any.string l.TraceID)
    ∧ (ev.Add l).fields.get? "trace.parent_id"
        = (if l.ParentID = "" then ev.fields.get? "trace.parent_id"
           else some (Any.string l.ParentID))
    ∧ (ev.Add l).fields.get? "trace.link.trace_id" = some (Any.string l.LinkTraceID)
    ∧ (ev.Add l).fields.get? "trace.link.span_id" = some (Any.string l.LinkSpanID)
    ∧ (ev.Add l).fields.get? "meta.annotation_type" = some (Any.string l.AnnotationType) := by
  unfold Event.Add
  by_cases h : l.ParentID = "" <;> simp [h, Event.AddField, GoMap.get?_set]

theorem SpanID.String_eq_empty_iff (id : SpanID) : id.String = "" ↔ id.IsEmpty = true := by
  unfold SpanID.String
  cases h : id.IsEmpty with
  | true => simp
  | false =>
    simp only [Bool.false_eq_true, if_false, iff_false]
    intro h2
    have h3 : (String.mk (hexEncode id.bytes)).length = 16 := by
      simp only [String.length]
      rw [hexEncode_length, id.size]
    rw [h2] at h3
    exact absurd h3 (by decide)

theorem linkEvent_id_fields (e : honeycombExporter) (f : Float64 → String)
    (span : Span) (ra : GoMap) (l : SpanLink) (k : String)
    (hr : ra.get? k = none) (hattr : (spanAttributesToMap l.attributes).get? k = none) :
    (linkEvent e f none span ra l).fields.get? k
      = (e.builder.NewEvent.Add (mkLink span l)).fields.get? k := by
  rw [linkEvent_fields, hattr, hr]

theorem linkEvent_fields_isSome (e : honeycombExporter) (f : Float64 → String)
    (span : Span) (ra : GoMap) (l : SpanLink) (k : String)
    (h : ((e.builder.NewEvent.Add (mkLink span l)).fields.get? k).isSome = true) :
    ((linkEvent e f none span ra l).fields.get? k).isSome = true := by
  rw [linkEvent_fields]
  cases (spanAttributesToMap l.attributes).get? k with
  | some v => rfl
  | none =>
    cases ra.get? k with
    | some v => rfl
    | none => exact h

/-- C12, as the code has it: for every span and every link on it whose `Add`
succeeds, when neither the flattened resource attributes nor the flattened
link attributes have one of the keys `trace.trace_id`, `trace.parent_id`,
`trace.link.trace_id`, `trace.link.span_id`, the event has `trace.trace_id`
equal to `getHoneycombTraceID` of the trace id of the link,
`trace.link.trace_id` equal to `getHoneycombTraceID` of the trace id of the
containing span, `trace.link.span_id` equal to the `String()` of the span id
of the containing span, and `trace.parent_id` equal to the `String()` of the
span id of the link, that is its 16-character hex encoding, the field being
absent when that id is all zero. -/
theorem sendSpanLinks_id_fields (e : honeycombExporter) (f : Float64 → String)
    (o : Outcomes) (span : Span) (ra : GoMap) (w : World) (i : Nat) (l : SpanLink)
    (hl : span.links[i]? = some l)
    (hadd : o.add (w.sent.length + i) = none)
    (hr : ∀ k ∈ idFieldNames, ra.get? k = none)
    (hattr : ∀ k ∈ idFieldNames, (spanAttributesToMap l.attributes).get? k = none) :
    ∃ ev, (sendSpanLinks e f o span ra w).sent[w.sent.length + i]? = some ev
      ∧ ev.fields.get? "trace.trace_id" = some (Any.string (getHoneycombTraceID l.traceID))
      ∧ ev.fields.get? "trace.parent_id"
          = (if l.spanID.IsEmpty = true then none
             else some (Any.string (String.mk (hexEncode l.spanID.bytes))))
      ∧ ev.fields.get? "trace.link.trace_id"
          = some (Any.string (getHoneycombTraceID span.traceID))
      ∧ ev.fields.get? "trace.link.span_id" = some (Any.string span.spanID.String) := by
  have hadd_fields := Event.Add_fields e.builder.NewEvent (mkLink span l)
  refine ⟨linkEvent e f none span ra l, ?_, ?_, ?_, ?_, ?_⟩
  · rw [sendSpanLinks_getElem?, hl, hadd]
    rfl
  · rw [linkEvent_id_fields e f span ra l _ (hr _ (by decide)) (hattr _ (by decide))]
    exact hadd_fields.1
  · rw [linkEvent_id_fields e f span ra l _ (hr _ (by decide)) (hattr _ (by decide)),
      hadd_fields.2.1]
    cases hz : l.spanID.IsEmpty with
    | true =>
      have h1 : (mkLink span l).ParentID = "" := (SpanID.String_eq_empty_iff _).2 hz
      rw [if_pos h1, if_pos rfl]
      rfl
    | false =>
      have h1 : ¬ (mkLink span l).ParentID = "" := by
        intro h2
        have := (SpanID.String_eq_empty_iff _).1 h2
        rw [hz] at this
        exact absurd this (by decide)
      rw [if_neg h1, if_neg (by decide)]
      simp [mkLink, SpanID.String, hz]
  · rw [linkEvent_id_fields e f span ra l _ (hr _ (by decide)) (hattr _ (by decide))]
    exact hadd_fields.2.2.1
  · rw [linkEvent_id_fields e f span ra l _ (hr _ (by decide)) (hattr _ (by decide))]
    exact hadd_fields.2.2.2.1

/-- C12, witness: a span with one link to the sample span, no attributes,
every call succeeding. -/
theorem sendSpanLinks_id_fields_witness :
    ∃ ev, (sendSpanLinks sampleExporter sampleFmtFloat allSucceed
        ⟨sampleTraceID, zeroSpanID, 0, [sampleLink []]⟩ GoMap.empty World.init).sent[0]?
          = some ev
      ∧ ev.fields.get? "trace.parent_id" = some (Any.string "00f067aa0ba902b7")
      ∧ ev.fields.get? "trace.link.span_id" = some (Any.string "") := by
  obtain ⟨ev, h1, _, h3, _, h5⟩ := sendSpanLinks_id_fields sampleExporter sampleFmtFloat
    allSucceed ⟨sampleTraceID, zeroSpanID, 0, [sampleLink []]⟩ GoMap.empty World.init 0
    (sampleLink []) rfl rfl (by decide) (by decide)
  exact ⟨ev, h1, h3, h5⟩

/-- C12, counterexample: for the link span id `00f067aa0ba902b7` the field
`trace.parent_id` is `00f067aa0ba902b7`, which is not what
`getHoneycombSpanID` returns for that id; and for an all-zero link span id
the field is absent, not the empty string that `getHoneycombSpanID`
returns. -/
theorem sendSpanLinks_parent_id_not_getHoneycombSpanID :
    (sendSpanLinks sampleExporter sampleFmtFloat allSucceed
        ⟨sampleTraceID, sampleSpanID, 0, [sampleLink []]⟩ GoMap.empty
        World.init).sent.map (fun ev => ev.fields.get? "trace.parent_id")
      = [some (Any.string "00f067aa0ba902b7")]
    ∧ getHoneycombSpanID sampleSpanID = "30306630363761613062613930326237"
    ∧ (sendSpanLinks sampleExporter sampleFmtFloat allSucceed
        ⟨sampleTraceID, sampleSpanID, 0, [⟨sampleTraceID, zeroSpanID, []⟩]⟩ GoMap.empty
        World.init).sent.map (fun ev => ev.fields.get? "trace.parent_id")
      = [none]
    ∧ getHoneycombSpanID zeroSpanID = "" := by
  decide

/-! ## The error callback and the result of the push -/

theorem errorsFrom_append (o : Outcomes) (n : Nat) (xs ys : List (GoMap × Span × SpanLink)) :
    errorsFrom o n (xs ++ ys) = errorsFrom o n xs ++ errorsFrom o (n + xs.length) ys := by
  induction xs generalizing n with
  | nil => rfl
  | cons x xs ih =>
    have h : n + (xs.length + 1) = n + 1 + xs.length := by omega
    rw [List.cons_append, errorsFrom, errorsFrom, ih, List.length_cons, h]
    simp only [List.append_assoc]

theorem errorsFrom_eq_flatMap (o : Outcomes) (n : Nat) (xs : List (GoMap × Span × SpanLink)) :
    errorsFrom o n xs
      = (List.range xs.length).flatMap
          (fun i => (o.add (n + i)).toList ++ (o.send (n + i)).toList) := by
  induction xs generalizing n with
  | nil => rfl
  | cons x xs ih =>
    rw [errorsFrom, ih, List.length_cons, List.range_succ_eq_map, List.flatMap_cons,
      List.flatMap_map]
    congr 1
    apply List.flatMap_congr
    intro i _
    have h : n + 1 + i = n + (i + 1) := by omega
    rw [h]

theorem round_errors (e : honeycombExporter) (f : Float64 → String) (o : Outcomes)
    (span : Span) (ra : GoMap) (w : World) (l : SpanLink) :
    (sendSpanLinks.round e f o span ra w l).onErrorCalls
      = w.onErrorCalls ++ errorsFrom o w.sent.length [(ra, span, l)] := by
  unfold sendSpanLinks.round
  cases ha : o.add w.sent.length <;> cases hs : o.send w.sent.length <;>
    simp [World.report, errorsFrom, ha, hs]

theorem foldl_errors {α : Type} (e : honeycombExporter) (f : Float64 → String) (o : Outcomes)
    (F : α → List (GoMap × Span × SpanLink)) (g : World → α → World)
    (hg : ∀ w x, (g w x).sent = w.sent ++ eventsFrom e f o w.sent.length (F x))
    (he : ∀ w x, (g w x).onErrorCalls = w.onErrorCalls ++ errorsFrom o w.sent.length (F x))
    (xs : List α) (w : World) :
    (xs.foldl g w).onErrorCalls
      = w.onErrorCalls ++ errorsFrom o w.sent.length (xs.flatMap F) := by
  induction xs generalizing w with
  | nil => simp [errorsFrom]
  | cons x xs ih =>
    rw [List.foldl_cons, ih, he, hg, List.flatMap_cons, errorsFrom_append, List.length_append,
      eventsFrom_length, List.append_assoc]

theorem flatMap_singleton_links (span : Span) (ra : GoMap) (ls : List SpanLink) :
    ls.flatMap (fun l => [(ra, span, l)]) = ls.map (fun l => (ra, span, l)) := by
  induction ls with
  | nil => rfl
  | cons l ls ih => simp [List.flatMap_cons, ih]

theorem sendSpanLinks_errors (e : honeycombExporter) (f : Float64 → String) (o : Outcomes)
    (span : Span) (ra : GoMap) (w : World) :
    (sendSpanLinks e f o span ra w).onErrorCalls
      = w.onErrorCalls
        ++ errorsFrom o w.sent.length (span.links.map (fun l => (ra, span, l))) := by
  unfold sendSpanLinks
  rw [foldl_errors e f o (fun l => [(ra, span, l)]) _ (round_sent e f o span ra)
    (round_errors e f o span ra), flatMap_singleton_links]

theorem pushTraceData_errors (e : honeycombExporter) (f : Float64 → String) (o : Outcomes)
    (td : Traces) (w : World) :
    (pushTraceData e f o td w).1.onErrorCalls
      = w.onErrorCalls ++ errorsFrom o w.sent.length (allLinks td) := by
  unfold pushTraceData allLinks
  simp only
  apply foldl_errors e f o
  · intro w rs
    apply foldl_sent
    intro w ss
    apply foldl_sent
    intro w sp
    exact sendSpanLinks_sent e f o sp _ w
  · intro w rs
    apply foldl_errors e f o
    · intro w ss
      apply foldl_sent
      intro w sp
      exact sendSpanLinks_sent e f o sp _ w
    · intro w ss
      apply foldl_errors e f o
      · intro w sp
        exact sendSpanLinks_sent e f o sp _ w
      · intro w sp
        exact sendSpanLinks_errors e f o sp _ w

theorem pushTraceData_errors_init (e : honeycombExporter) (f : Float64 → String)
    (o : Outcomes) (td : Traces) :
    (pushTraceData e f o td World.init).1.onErrorCalls
      = (List.range (countLinks td)).flatMap
          (fun i => (o.add i).toList ++ (o.send i).toList) := by
  rw [pushTraceData_errors, errorsFrom_eq_flatMap, allLinks_length]
  simp [World.init]

/-- C13: for every batch, every assignment of outcomes and every state of
the outside, `pushTraceData` returns a nil error; on the sample batch with
every `Add` and every `Send` failing, both errors reach the callback and the
result is still nil. -/
theorem pushTraceData_returns_nil (e : honeycombExporter) (f : Float64 → String)
    (o : Outcomes) (td : Traces) (w : World) :
    (pushTraceData e f o td w).2 = none
    ∧ (pushTraceData sampleExporter sampleFmtFloat allFail
        (sampleBatch [] [sampleLink []]) World.init).2 = none
    ∧ (pushTraceData sampleExporter sampleFmtFloat allFail
        (sampleBatch [] [sampleLink []]) World.init).1.onErrorCalls
      = ["add failed", "send failed"] :=
  ⟨rfl, rfl, by decide⟩

theorem flatMap_toList_length (a b : Nat → Option String) (L : List Nat) :
    (L.flatMap (fun i => (a i).toList ++ (b i).toList)).length
      = (L.filter (fun i => (a i).isSome)).length
        + (L.filter (fun i => (b i).isSome)).length := by
  induction L with
  | nil => rfl
  | cons i L ih =>
    rw [List.flatMap_cons, List.length_append, ih]
    cases ha : a i <;> cases hb : b i <;>
      simp [List.filter_cons, ha, hb] <;> omega

/-- C16: for every batch and every assignment of outcomes, the calls of
`onError` are, for each link in traversal order, the error of its `Add` if
that failed and then the error of its `Send` if that failed: one call per
failed call, so their number is the number of failed `Add` calls plus the
number of failed `Send` calls, and none when every call succeeds. -/
theorem pushTraceData_onError_calls (e : honeycombExporter) (f : Float64 → String)
    (o : Outcomes) (td : Traces) :
    (pushTraceData e f o td World.init).1.onErrorCalls
      = (List.range (countLinks td)).flatMap
          (fun i => (o.add i).toList ++ (o.send i).toList)
    ∧ (pushTraceData e f o td World.init).1.onErrorCalls.length
      = ((List.range (countLinks td)).filter (fun i => (o.add i).isSome)).length
        + ((List.range (countLinks td)).filter (fun i => (o.send i).isSome)).length
    ∧ ((∀ i, i < countLinks td → o.add i = none ∧ o.send i = none) →
        (pushTraceData e f o td World.init).1.onErrorCalls = []) := by
  have h := pushTraceData_errors_init e f o td
  refine ⟨h, ?_, ?_⟩
  · rw [h, flatMap_toList_length]
  · intro hall
    rw [h, List.flatMap_eq_nil_iff]
    intro i hi
    obtain ⟨h1, h2⟩ := hall i (List.mem_range.1 hi)
    rw [h1, h2]
    rfl

/-! ## Presence of the fixed fields -/

/-- C15, as the code has it: in the event of a link whose `Add` succeeds,
when neither the flattened resource attributes nor the flattened link
attributes have the key `trace.parent_id`, the field `trace.parent_id` is
present exactly when the span id of the link is not all zero; the fields
`trace.trace_id`, `trace.link.trace_id`, `trace.link.span_id` and
`meta.annotation_type` are present; and `trace.link.span_id` is the empty
string when the span id of the containing span is all zero and no attribute
has that key. -/
theorem sendSpanLinks_fixed_fields_present (e : honeycombExporter) (f : Float64 → String)
    (o : Outcomes) (span : Span) (ra : GoMap) (w : World) (i : Nat) (l : SpanLink)
    (hl : span.links[i]? = some l)
    (hadd : o.add (w.sent.length + i) = none)
    (hr : ra.get? "trace.parent_id" = none)
    (hattr : (spanAttributesToMap l.attributes).get? "trace.parent_id" = none) :
    ∃ ev, (sendSpanLinks e f o span ra w).sent[w.sent.length + i]? = some ev
      ∧ ((ev.fields.get? "trace.parent_id").isSome = !l.spanID.IsEmpty)
      ∧ (ev.fields.get? "trace.trace_id").isSome = true
      ∧ (ev.fields.get? "trace.link.trace_id").isSome = true
      ∧ (ev.fields.get? "trace.link.span_id").isSome = true
      ∧ (ev.fields.get? "meta.annotation_type").isSome = true
      ∧ (span.spanID.IsEmpty = true → ra.get? "trace.link.span_id" = none →
          (spanAttributesToMap l.attributes).get? "trace.link.span_id" = none →
          ev.fields.get? "trace.link.span_id" = some (Any.string "")) := by
  have hf := Event.Add_fields e.builder.NewEvent (mkLink span l)
  refine ⟨linkEvent e f none span ra l, ?_, ?_, ?_, ?_, ?_, ?_, ?_⟩
  · rw [sendSpanLinks_getElem?, hl, hadd]
    rfl
  · rw [linkEvent_id_fields e f span ra l _ hr hattr, hf.2.1]
    cases hz : l.spanID.IsEmpty with
    | true =>
      have h1 : (mkLink span l).ParentID = "" := (SpanID.String_eq_empty_iff _).2 hz
      rw [if_pos h1]
      rfl
    | false =>
      have h1 : ¬ (mkLink span l).ParentID = "" := by
        intro h2
        have := (SpanID.String_eq_empty_iff _).1 h2
        rw [hz] at this
        exact absurd this (by decide)
      rw [if_neg h1]
      rfl
  · exact linkEvent_fields_isSome e f span ra l _ (by rw [hf.1]; rfl)
  · exact linkEvent_fields_isSome e f span ra l _ (by rw [hf.2.2.1]; rfl)
  · exact linkEvent_fields_isSome e f span ra l _ (by rw [hf.2.2.2.1]; rfl)
  · exact linkEvent_fields_isSome e f span ra l _ (by rw [hf.2.2.2.2]; rfl)
  · intro hz hr2 hattr2
    rw [linkEvent_id_fields e f span ra l _ hr2 hattr2, hf.2.2.2.1]
    have h1 : (mkLink span l).LinkSpanID = "" := (SpanID.String_eq_empty_iff _).2 hz
    rw [h1]

/-- C15, witness: a span with an all-zero span id and one link to the sample
span, no attributes, every call succeeding. -/
theorem sendSpanLinks_fixed_fields_present_witness :
    ∃ ev, (sendSpanLinks sampleExporter sampleFmtFloat allSucceed
        ⟨sampleTraceID, zeroSpanID, 0, [sampleLink []]⟩ GoMap.empty World.init).sent[0]?
          = some ev
      ∧ (ev.fields.get? "trace.parent_id").isSome = true
      ∧ ev.fields.get? "trace.link.span_id" = some (Any.string "") := by
  obtain ⟨ev, h1, h2, _, _, _, _, h7⟩ := sendSpanLinks_fixed_fields_present sampleExporter
    sampleFmtFloat allSucceed ⟨sampleTraceID, zeroSpanID, 0, [sampleLink []]⟩ GoMap.empty
    World.init 0 (sampleLink []) rfl rfl rfl rfl
  exact ⟨ev, h1, h2, h7 rfl rfl rfl⟩

/-- C15, counterexample: with an all-zero containing span id and a link
attribute named `trace.link.span_id`, the field holds the attribute, not the
empty string; and the event of a link whose `Add` fails has none of the
fixed fields. -/
theorem sendSpanLinks_fixed_fields_overwritten_or_absent :
    (sendSpanLinks sampleExporter sampleFmtFloat allSucceed
        ⟨sampleTraceID, zeroSpanID, 0,
          [sampleLink [("trace.link.span_id", Value.str "abc")]]⟩ GoMap.empty
        World.init).sent.map (fun ev => ev.fields.get? "trace.link.span_id")
      = [some (Any.string "abc")]
    ∧ (sendSpanLinks sampleExporter sampleFmtFloat addFails
        ⟨sampleTraceID, zeroSpanID, 0, [sampleLink []]⟩ GoMap.empty
        World.init).sent.map
          (fun ev => (ev.fields.get? "trace.trace_id", ev.fields.get? "trace.parent_id",
            ev.fields.get? "trace.link.trace_id", ev.fields.get? "trace.link.span_id",
            ev.fields.get? "meta.annotation_type"))
      = [(none, none, none, none, none)] := by
  decide

/-! ## The dataset and the link -/

theorem sendSpanLinks_init_getElem? (e : honeycombExporter) (f : Float64 → String)
    (o : Outcomes) (span : Span) (ra : GoMap) (i : Nat) :
    (sendSpanLinks e f o span ra World.init).sent[i]?
      = (span.links[i]?).map (fun l => linkEvent e f (o.add i) span ra l) := by
  have h := sendSpanLinks_getElem? e f o span ra World.init i
  have h0 : World.init.sent.length + i = i := by
    show 0 + i = i
    omega
  rw [h0] at h
  exact h

/-- C18: for any two runs of `sendSpanLinks` of one exporter that share the
resource attribute map, whatever their spans, links, link attributes and
outcomes, the events at the same position carry the same dataset. -/
theorem sendSpanLinks_dataset_resource_only (e : honeycombExporter) (f : Float64 → String)
    (o1 o2 : Outcomes) (span1 span2 : Span) (ra : GoMap) (i : Nat) (ev1 ev2 : Event)
    (h1 : (sendSpanLinks e f o1 span1 ra World.init).sent[i]? = some ev1)
    (h2 : (sendSpanLinks e f o2 span2 ra World.init).sent[i]? = some ev2) :
    ev1.Dataset = ev2.Dataset := by
  rw [sendSpanLinks_init_getElem?] at h1 h2
  cases hl1 : span1.links[i]? with
  | none => rw [hl1] at h1; exact absurd h1 (by simp)
  | some l1 =>
    cases hl2 : span2.links[i]? with
    | none => rw [hl2] at h2; exact absurd h2 (by simp)
    | some l2 =>
      rw [hl1, Option.map_some', Option.some.injEq] at h1
      rw [hl2, Option.map_some', Option.some.injEq] at h2
      rw [← h1, ← h2, linkEvent_dataset, linkEvent_dataset]

/-- C18, witness: two runs under a resource with `service.name = "checkout"`;
the link of the first has an attribute `service.name = "other"` and its
`Add` fails, the span of the second has another span id; both events have the
dataset `checkout`. -/
theorem sendSpanLinks_dataset_resource_only_witness :
    (linkEvent sampleExporter sampleFmtFloat (some "add failed")
        ⟨sampleTraceID, sampleSpanID, 0, [sampleLink [("service.name", Value.str "other")]]⟩
        (spanAttributesToMap [("service.name", Value.str "checkout")])
        (sampleLink [("service.name", Value.str "other")])).Dataset
      = (linkEvent sampleExporter sampleFmtFloat none
        ⟨sampleTraceID, zeroSpanID, 7, [sampleLink []]⟩
        (spanAttributesToMap [("service.name", Value.str "checkout")])
        (sampleLink [])).Dataset
    ∧ (linkEvent sampleExporter sampleFmtFloat none
        ⟨sampleTraceID, zeroSpanID, 7, [sampleLink []]⟩
        (spanAttributesToMap [("service.name", Value.str "checkout")])
        (sampleLink [])).Dataset = "checkout" :=
  ⟨sendSpanLinks_dataset_resource_only sampleExporter sampleFmtFloat addFails allSucceed
      ⟨sampleTraceID, sampleSpanID, 0, [sampleLink [("service.name", Value.str "other")]]⟩
      ⟨sampleTraceID, zeroSpanID, 7, [sampleLink []]⟩
      (spanAttributesToMap [("service.name", Value.str "checkout")]) 0 _ _
      (by decide) (by decide),
    by decide⟩

/-! ## Injectivity of the trace id rendering -/

theorem hexDigit_inj_fin : ∀ a b : Fin 16, hexDigit a.val = hexDigit b.val → a = b := by
  decide

theorem hexDigit_inj (a b : Nat) (ha : a < 16) (hb : b < 16) (h : hexDigit a = hexDigit b) :
    a = b := by
  have := hexDigit_inj_fin ⟨a, ha⟩ ⟨b, hb⟩ h
  exact Fin.mk.inj this

theorem hexFixed_inj (w n m : Nat) (hn : n < 16 ^ w) (hm : m < 16 ^ w)
    (h : hexFixed w n = hexFixed w m) : n = m := by
  induction w generalizing n m with
  | zero =>
    simp only [pow_zero, Nat.lt_one_iff] at hn hm
    rw [hn, hm]
  | succ w ih =>
    simp only [hexFixed] at h
    have hlen : (hexFixed w (n / 16)).length = (hexFixed w (m / 16)).length := by
      rw [hexFixed_length, hexFixed_length]
    obtain ⟨h1, h2⟩ := List.append_inj h hlen
    have hn2 : n / 16 < 16 ^ w := by
      rw [Nat.div_lt_iff_lt_mul (by norm_num)]
      rw [pow_succ] at hn
      exact hn
    have hm2 : m / 16 < 16 ^ w := by
      rw [Nat.div_lt_iff_lt_mul (by norm_num)]
      rw [pow_succ] at hm
      exact hm
    have hq := ih _ _ hn2 hm2 h1
    have hr : n % 16 = m % 16 :=
      hexDigit_inj _ _ (Nat.mod_lt _ (by norm_num)) (Nat.mod_lt _ (by norm_num))
        (List.cons.inj h2).1
    omega

theorem beValue_inj (l1 l2 : List Byte) (hlen : l1.length = l2.length)
    (h : beValue l1 = beValue l2) : l1 = l2 := by
  induction l1 generalizing l2 with
  | nil =>
    cases l2 with
    | nil => rfl
    | cons b bs => simp at hlen
  | cons a as ih =>
    cases l2 with
    | nil => simp at hlen
    | cons b bs =>
      simp only [List.length_cons, Nat.add_right_cancel_iff] at hlen
      simp only [beValue] at h
      rw [hlen] at h
      have hP : 0 < 256 ^ bs.length := by positivity
      have h1 : beValue as < 256 ^ bs.length := by
        rw [← hlen]
        exact beValue_lt as
      have h2 : beValue bs < 256 ^ bs.length := beValue_lt bs
      have hd : ∀ (c v : Nat), v < 256 ^ bs.length →
          (c * 256 ^ bs.length + v) / 256 ^ bs.length = c := by
        intro c v hv
        rw [Nat.add_comm, Nat.add_mul_div_right _ _ hP, Nat.div_eq_of_lt hv, Nat.zero_add]
      have hab : a.val = b.val := by
        rw [← hd a.val _ h1, ← hd b.val _ h2, h]
      have hrest : beValue as = beValue bs := by
        rw [hab] at h
        exact Nat.add_left_cancel h
      rw [Fin.ext hab, ih bs hlen hrest]

theorem getHoneycombTraceID_inj (t1 t2 : TraceID)
    (h : getHoneycombTraceID t1 = getHoneycombTraceID t2) : t1 = t2 := by
  have hl1 := t1.size
  have hl2 := t2.size
  have hH1 : beValue (t1.bytes.take 8) < 16 ^ 16 := by
    have := beValue_lt_uint64 (t1.bytes.take 8) (by simp)
    norm_num at this ⊢
    exact this
  have hH2 : beValue (t2.bytes.take 8) < 16 ^ 16 := by
    have := beValue_lt_uint64 (t2.bytes.take 8) (by simp)
    norm_num at this ⊢
    exact this
  have hL1 : beValue (t1.bytes.drop 8) < 16 ^ 16 := by
    have := beValue_lt_uint64 (t1.bytes.drop 8) (by simp [hl1])
    norm_num at this ⊢
    exact this
  have hL2 : beValue (t2.bytes.drop 8) < 16 ^ 16 := by
    have := beValue_lt_uint64 (t2.bytes.drop 8) (by simp [hl2])
    norm_num at this ⊢
    exact this
  have hlenT : (t1.bytes.take 8).length = (t2.bytes.take 8).length := by
    simp [hl1, hl2]
  have hlenD : (t1.bytes.drop 8).length = (t2.bytes.drop 8).length := by
    simp [hl1, hl2]
  rw [getHoneycombTraceID_eq, getHoneycombTraceID_eq] at h
  have hbytes : t1.bytes.take 8 = t2.bytes.take 8 ∧ t1.bytes.drop 8 = t2.bytes.drop 8 := by
    by_cases z1 : beValue (t1.bytes.take 8) = 0
    · by_cases z2 : beValue (t2.bytes.take 8) = 0
      · rw [if_pos z1, if_pos z2] at h
        have hL := hexFixed_inj 16 _ _ hL1 hL2 (congrArg String.data h)
        exact ⟨beValue_inj _ _ hlenT (by rw [z1, z2]), beValue_inj _ _ hlenD hL⟩
      · rw [if_pos z1, if_neg z2] at h
        have hlen := congrArg String.length h
        simp [String.length, hexFixed_length] at hlen
    · by_cases z2 : beValue (t2.bytes.take 8) = 0
      · rw [if_neg z1, if_pos z2] at h
        have hlen := congrArg String.length h
        simp [String.length, hexFixed_length] at hlen
      · rw [if_neg z1, if_neg z2] at h
        have hlen : (hexFixed 16 (beValue (t1.bytes.take 8))).length
            = (hexFixed 16 (beValue (t2.bytes.take 8))).length := by
          rw [hexFixed_length, hexFixed_length]
        obtain ⟨hH, hL⟩ := List.append_inj (congrArg String.data h) hlen
        exact ⟨beValue_inj _ _ hlenT (hexFixed_inj 16 _ _ hH1 hH2 hH),
          beValue_inj _ _ hlenD (hexFixed_inj 16 _ _ hL1 hL2 hL)⟩
  have hb : t1.bytes = t2.bytes := by
    rw [← List.take_append_drop 8 t1.bytes, ← List.take_append_drop 8 t2.bytes,
      hbytes.1, hbytes.2]
  cases t1
  cases t2
  simp only at hb
  subst hb
  rfl

/-- C17: `getHoneycombTraceID` is injective on 16-byte trace ids: two
different ids never have the same rendering. -/
theorem getHoneycombTraceID_injective (t1 t2 : TraceID) (h : t1 ≠ t2) :
    getHoneycombTraceID t1 ≠ getHoneycombTraceID t2
    ∧ Function.Injective getHoneycombTraceID :=
  ⟨fun heq => h (getHoneycombTraceID_inj t1 t2 heq),
    fun a b hab => getHoneycombTraceID_inj a b hab⟩

/-- C17, witness: the zero-padded id `00000000000000004bf92f3577b34da6` and
the id `4bf92f3577b34da60000000000000000` are rendered differently. -/
theorem getHoneycombTraceID_injective_witness :
    paddedTraceID ≠ shiftedTraceID
    ∧ getHoneycombTraceID paddedTraceID ≠ getHoneycombTraceID shiftedTraceID :=
  ⟨by decide, (getHoneycombTraceID_injective paddedTraceID shiftedTraceID (by decide)).1⟩

end HoneycombBacklink
